import Mathlib

/-!
Verification of the copy-planning and conflict-resolution engine of
PicTransfer (`src/importpics.py`, `src/diskutil.py`).

Modelling conventions of this shallow embedding:
* Filesystem state is an association list from absolute path strings to
  entries (regular file with byte size, or directory); the first binding
  for a path wins.
* Python exceptions become an explicit `Err` value inside `Except`, one
  constructor per distinct kind of raise site in the source.
* External collaborators that the source delegates to (EXIF tag reading,
  `dateutil` date parsing, the md5 camera hash, and the I/O outcome of an
  individual `shutil.copy`) are oracle function parameters.
* `datetime.date` arithmetic is the proleptic Gregorian ordinal, exactly
  as `datetime.date.toordinal` computes it.
* Text files in the copy-log directory are modelled at line granularity
  (`add` writes one line; `load` strips each line, as the source does).
-/

/-- Errors raised by the Python source, one constructor per raise-site kind. -/
inductive Err where
  /-- `ValueError()` -/
  | valueError
  /-- `Exception("must call __enter__ before calling add")` -/
  | notEntered
  /-- `Exception("something went wrong")` in `FileGroup.append` -/
  | groupMismatch
  /-- `Exception("wrong number of jpg files")` in `FileGroup.jpg` -/
  | wrongJpgCount
  /-- `Exception("unable to read EXIF date of image")` -/
  | noExifDate
  /-- `Exception("cannot find alternate folder for ...")` in `alt_folder` -/
  | exhausted
  /-- `Exception("logic error copying files")` in `try_copy` -/
  | logicError
  /-- `FileExistsError` from `os.makedirs` on an existing path -/
  | fileExists
  /-- `OSError` from `os.path.getsize` on a missing file -/
  | osError
deriving DecidableEq, Repr

/-- A filesystem entry: a regular file with its byte size, or a directory. -/
inductive FSEntry where
  | file (size : Nat)
  | dir
deriving DecidableEq, Repr

/-- Filesystem state: association list from path to entry (first binding wins). -/
structure FS where
  entries : List (String × FSEntry)
deriving DecidableEq, Repr

def FS.lookup (fs : FS) (p : String) : Option FSEntry :=
  (fs.entries.find? (fun e => e.1 == p)).map (fun e => e.2)

/-- `os.path.isdir` -/
def FS.isdir (fs : FS) (p : String) : Bool :=
  fs.lookup p == some FSEntry.dir

/-- `os.path.isfile` -/
def FS.isfile (fs : FS) (p : String) : Bool :=
  match fs.lookup p with
  | some (FSEntry.file _) => true
  | _ => false

/-- `os.path.exists` -/
def FS.existsp (fs : FS) (p : String) : Bool :=
  (fs.lookup p).isSome

/-- `os.path.getsize`: raises `OSError` unless the path is a regular file. -/
def FS.getsize (fs : FS) (p : String) : Except Err Nat :=
  match fs.lookup p with
  | some (FSEntry.file n) => Except.ok n
  | _ => Except.error Err.osError

/-- Total size accessor used to state specifications (0 when not a file). -/
def FS.fsize (fs : FS) (p : String) : Nat :=
  match fs.lookup p with
  | some (FSEntry.file n) => n
  | _ => 0

def FS.set (fs : FS) (p : String) (e : FSEntry) : FS :=
  ⟨(p, e) :: fs.entries⟩

/-- `os.makedirs(p)` (no `exist_ok`): raises `FileExistsError` when `p` exists,
otherwise creates the directory.  Parent creation is immaterial to the claims
verified here and is elided. -/
def FS.makedirs (fs : FS) (p : String) : Except Err FS :=
  if fs.existsp p then Except.error Err.fileExists
  else Except.ok (fs.set p FSEntry.dir)

/-- Characters of the last path component (`os.path.basename`), as a list. -/
def basenameCL (cs : List Char) : List Char :=
  (cs.reverse.takeWhile (fun c => c ≠ '/')).reverse

/-- `os.path.basename` -/
def basename (p : String) : String :=
  String.mk (basenameCL p.data)

/-- `os.path.join(a, b)` for a relative second component. -/
def joinPath (a b : String) : String :=
  a ++ "/" ++ b

/-- Drop the last extension of a file name: the part from the final dot,
provided that dot is not the leading character (pathlib suffix semantics). -/
def dropLastExtCL (name : List Char) : List Char :=
  match name.reverse.dropWhile (fun c => c ≠ '.') with
  | [] => name
  | [_] => name
  | _ :: tail => tail.reverse

/-- Python `str.strip()` (whitespace at both ends removed). -/
def pstrip (s : String) : String :=
  String.mk (((s.data.dropWhile Char.isWhitespace).reverse.dropWhile Char.isWhitespace).reverse)

/-- Python `str.endswith(suf)` -/
def endswith (s suf : String) : Bool :=
  suf.data.isSuffixOf s.data

/-- Python `str.lower()` -/
def plower (s : String) : String :=
  String.mk (s.data.map Char.toLower)

/-- One file of the copy-log folder: its file name and its stripped-at-load lines. -/
structure LogFile where
  name : String
  lines : List String
deriving DecidableEq, Repr

/-- `CopyLog`: the in-memory merged set of previously copied paths
(`copied_files`), the lines written to this run's own log file (`logfile`),
and whether `__enter__` has opened the write handle (`entered`). -/
structure CopyLog where
  copied_files : List String
  logfile : List String
  entered : Bool
deriving DecidableEq, Repr

/-- `CopyLog.__enter__`: opens the write handle. -/
def CopyLog.enter (c : CopyLog) : CopyLog :=
  { c with entered := true }

/-- `CopyLog.add`: requires the write handle; appends the path (plus newline)
as one line of the current run's log file; `copied_files` is not touched. -/
def CopyLog.add (c : CopyLog) (p : String) : Except Err CopyLog :=
  if c.entered then Except.ok { c with logfile := c.logfile ++ [p] }
  else Except.error Err.notEntered

/-- `CopyLog.already_copied(*paths)`: `ValueError` on an empty argument list,
otherwise true iff every path is in the merged set. -/
def CopyLog.already_copied (c : CopyLog) (paths : List String) : Except Err Bool :=
  if paths.isEmpty then Except.error Err.valueError
  else Except.ok (paths.all (fun p => c.copied_files.contains p))

/-- Name of the current run's log file: `"copiedfiles.{pid}.{time}.log"`. -/
def logfileName (pid t : Nat) : String :=
  "copiedfiles." ++ toString pid ++ "." ++ toString t ++ ".log"

/-- `CopyLog.load(folder)`: merge the stripped lines of every file in the
folder whose lowercased name ends in ".log" into the in-memory set. -/
def CopyLog.load (dir : List LogFile) : CopyLog :=
  { copied_files :=
      ((dir.filter (fun f => endswith (plower f.name) ".log")).map
        (fun f => f.lines.map pstrip)).flatten
  , logfile := []
  , entered := false }

/-- Run metrics (`Metrics`); the wall-clock `started` field is omitted. -/
structure Metrics where
  total_seen : Option Nat
  already_copied : Option Nat
  too_old : Option Nat
  copied : Nat
  failed : List String
  file_existed : List String
  start_disk_avail : Option Nat
  end_disk_avail : Option Nat
  alt_folders : List String
deriving DecidableEq, Repr

/-- `items = items or [1]` followed by `len(items)`. -/
def orOne (items : Option (List String)) : Nat :=
  match items with
  | none => 1
  | some l => if l.isEmpty then 1 else l.length

def Metrics.inc_already_copied (m : Metrics) (items : Option (List String)) : Metrics :=
  { m with already_copied := some (m.already_copied.getD 0 + orOne items) }

def Metrics.inc_too_old (m : Metrics) (items : Option (List String)) : Metrics :=
  { m with too_old := some (m.too_old.getD 0 + orOne items) }

def Metrics.inc_copied (m : Metrics) (items : Option (List String)) : Metrics :=
  { m with copied := m.copied + orOne items }

/-- A naive `datetime.datetime` (proleptic Gregorian). -/
structure DateTime where
  year : Nat
  month : Nat
  day : Nat
  hour : Nat
  minute : Nat
  second : Nat
deriving DecidableEq, Repr

def isLeap (y : Nat) : Bool :=
  y % 4 == 0 && (y % 100 != 0 || y % 400 == 0)

/-- Days in year `y` strictly before month `m` (as `datetime` computes). -/
def daysBeforeMonth (y m : Nat) : Nat :=
  let base :=
    match m with
    | 1 => 0 | 2 => 31 | 3 => 59 | 4 => 90 | 5 => 120 | 6 => 151
    | 7 => 181 | 8 => 212 | 9 => 243 | 10 => 273 | 11 => 304 | _ => 334
  if decide (3 ≤ m) && isLeap y then base + 1 else base

/-- `datetime.date(y, m, d).toordinal()`. -/
def toordinal (y m d : Nat) : Nat :=
  365 * (y - 1) + (y - 1) / 4 - (y - 1) / 100 + (y - 1) / 400 + daysBeforeMonth y m + d

/-- `dt.date().toordinal()`: the time-of-day fields are discarded. -/
def DateTime.dateOrdinal (dt : DateTime) : Nat :=
  toordinal dt.year dt.month dt.day

/-- `(a.date() - b.date()).days` -/
def dateDiffDays (a b : DateTime) : Int :=
  (a.dateOrdinal : Int) - (b.dateOrdinal : Int)

/-- `FileGroup`: sibling files of one shot; optional fields start as
Python `None` and are filled in during planning. -/
structure FileGroup where
  files : List String
  base_path : Option String
  total_bytes : Option Nat
  dest_subfolder : Option String
  dest_subfolderalt : Option String
  exif_date : Option DateTime
deriving DecidableEq, Repr

/-- A fresh `FileGroup()` as `defaultdict(FileGroup)` constructs it. -/
def FileGroup.empty : FileGroup :=
  ⟨[], none, none, none, none, none⟩

/-- `FileGroup.basepath`: `str(pathlib.Path(path).with_suffix(""))` for
already-normalised paths — the final component loses its last extension. -/
def FileGroup.basepath (p : String) : String :=
  String.mk ((p.data.reverse.dropWhile (fun c => c ≠ '/')).reverse
    ++ dropLastExtCL (basenameCL p.data))

/-- `FileGroup.append`: record the path; establish the base path on first
append, and fail if a later path disagrees with it. -/
def FileGroup.append (fg : FileGroup) (path : String) : Except Err FileGroup :=
  let fg2 := { fg with files := fg.files ++ [path] }
  match fg.base_path with
  | none => Except.ok { fg2 with base_path := some (FileGroup.basepath path) }
  | some b =>
      if b = FileGroup.basepath path then Except.ok fg2
      else Except.error Err.groupMismatch

/-- `FileGroup.jpg`: the unique member whose lowercased name ends in ".jpg". -/
def FileGroup.jpg (fg : FileGroup) : Except Err String :=
  match fg.files.filter (fun f => endswith (plower f) ".jpg") with
  | [j] => Except.ok j
  | _ => Except.error Err.wrongJpgCount

/-- `CopyPlan` state; `destpath` starts as Python `None`, modelled `""`. -/
structure CopyPlan where
  lookback_days : Int
  started_dt : DateTime
  force : Bool
  groups_to_copy : List FileGroup
  bytes_to_copy : Nat
  start_disk_avail : Option Nat
  destpath : String
  maxpics : Option Int
deriving DecidableEq, Repr

/-- `CopyPlan.__init__`: rejects `lookback_days < 1` and a truthy `maxpics`
below 1 (`if maxpics and maxpics < 1`). -/
def CopyPlan.make (lookback_days : Int) (started_dt : DateTime) (force : Bool)
    (maxpics : Option Int) : Except Err CopyPlan :=
  if lookback_days < 1 then Except.error Err.valueError
  else if (match maxpics with
           | some m => decide (m ≠ 0) && decide (m < 1)
           | none => false) then Except.error Err.valueError
  else Except.ok
    { lookback_days := lookback_days
    , started_dt := started_dt
    , force := force
    , groups_to_copy := []
    , bytes_to_copy := 0
    , start_disk_avail := none
    , destpath := ""
    , maxpics := maxpics }

/-- `CopyPlan.add` -/
def CopyPlan.add (p : CopyPlan) (fg : FileGroup) : CopyPlan :=
  { p with groups_to_copy := p.groups_to_copy ++ [fg]
         , bytes_to_copy := p.bytes_to_copy + fg.total_bytes.getD 0 }

/-- `CopyPlan.in_lookback(dt)`: `(started_dt.date() - dt.date()).days <= lookback_days`. -/
def CopyPlan.in_lookback (p : CopyPlan) (dt : DateTime) : Bool :=
  decide (dateDiffDays p.started_dt dt ≤ p.lookback_days)

/-- Python `s.rstrip("/")`. -/
def rstripSlash (s : String) : String :=
  String.mk ((s.data.reverse.dropWhile (fun c => c = '/')).reverse)

/-- Python `str(k).zfill(digits)` for a natural `k`. -/
def zfill (digits : Nat) (s : String) : String :=
  if digits ≤ s.length then s
  else String.mk (List.replicate (digits - s.length) '0' ++ s.data)

/-- One candidate name tried by `alt_folder`. -/
def altCandidate (simplename : String) (digits k : Nat) : String :=
  simplename ++ "_" ++ zfill digits (toString k)

/-- The `for alt in range(start, stop)` loop of `alt_folder`, by remaining
iteration count; falls through to the exhaustion error. -/
def alt_search (fs : FS) (simplename : String) (digits : Nat) :
    Nat → Nat → Except Err String
  | _, 0 => Except.error Err.exhausted
  | k, n + 1 =>
      if fs.isdir (altCandidate simplename digits k) then
        alt_search fs simplename digits (k + 1) n
      else Except.ok (altCandidate simplename digits k)

/-- `diskutil.alt_folder(simplename, digits, start)`. -/
def alt_folder (fs : FS) (simplename : String) (digits start : Int) : Except Err String :=
  if simplename = "" then Except.error Err.valueError
  else if digits < 1 || start < 0 then Except.error Err.valueError
  else
    alt_search fs (rstripSlash simplename) digits.toNat start.toNat
      (10 ^ digits.toNat - start.toNat)

/-- EXIF tags as the source consumes them: tag name to stringified value. -/
abbrev Tags := List (String × String)

/-- Dictionary lookup in a tag map. -/
def tagLookup (tags : Tags) (k : String) : Option String :=
  (tags.find? (fun kv => kv.1 == k)).map (fun kv => kv.2)

/-- `exif_tags(filename)`: refuses filenames not ending in "jpg"; the EXIF
read itself is the external collaborator `readTags`. -/
def exif_tags (readTags : String → Tags) (filename : String) : Except Err Tags :=
  if endswith (plower filename) "jpg" then Except.ok (readTags filename)
  else Except.error Err.valueError

/-- `exif_date(tags)`: iterating `reversed(sorted(keys))` over the fixed
candidate set visits "Image DateTime", then "EXIF DateTimeOriginal", then
"EXIF DateTimeDigitized"; the first present tag's value is parsed by the
external parser (`parse_camera_date` / `dateutil`). -/
def exif_date (parseDate : String → Except Err DateTime) (tags : Tags) :
    Except Err DateTime :=
  match tagLookup tags "Image DateTime" with
  | some v => parseDate v
  | none =>
    match tagLookup tags "EXIF DateTimeOriginal" with
    | some v => parseDate v
    | none =>
      match tagLookup tags "EXIF DateTimeDigitized" with
      | some v => parseDate v
      | none => Except.error Err.noExifDate

/-- Zero-padded two-digit decimal. -/
def pad2 (n : Nat) : String :=
  if n < 10 then "0" ++ toString n else toString n

/-- `dt.strftime("%y%m%d")` (the only format the program uses, `YYMMDD`). -/
def strftimeYYMMDD (dt : DateTime) : String :=
  pad2 (dt.year % 100) ++ pad2 dt.month ++ pad2 dt.day

/-- `get_dest_subfolder(tags, YYMMDD)`: formatted EXIF date, underscore,
camera hash (`cam_hash` is the md5-based external collaborator). -/
def get_dest_subfolder (parseDate : String → Except Err DateTime)
    (camHash : Tags → String) (tags : Tags) : Except Err String := do
  let d ← exif_date parseDate tags
  Except.ok (strftimeYYMMDD d ++ "_" ++ camHash tags)

/-- The external collaborators consumed by `schedule_copy`. -/
structure Collab where
  readTags : String → Tags
  parseDate : String → Except Err DateTime
  camHash : Tags → String

/-- The cap test `copyplan.maxpics and len(copyplan.groups_to_copy) >= copyplan.maxpics`
(Python truthiness: `None` and `0` are falsy). -/
def capReached (plan : CopyPlan) : Bool :=
  match plan.maxpics with
  | some m => decide (m ≠ 0) && decide ((plan.groups_to_copy.length : Int) ≥ m)
  | none => false

/-- The size accumulation loop of `schedule_copy` (`os.path.getsize` per member). -/
def sumSizes (fs : FS) : List String → Except Err Nat
  | [] => Except.ok 0
  | f :: rest => do
      let n ← fs.getsize f
      let r ← sumSizes fs rest
      Except.ok (n + r)

/-- `schedule_copy(metrics, copyplan, copylog, fg)`: the per-shot gating
pipeline.  Returns the updated metrics and plan. -/
def schedule_copy (collab : Collab) (fs : FS) (metrics : Metrics)
    (copyplan : CopyPlan) (copylog : CopyLog) (fg : FileGroup) :
    Except Err (Metrics × CopyPlan) := do
  if capReached copyplan then
    return (metrics, copyplan)
  let skip ←
    if copyplan.force then pure false
    else copylog.already_copied fg.files
  if skip then
    return (metrics.inc_already_copied (some fg.files), copyplan)
  let j ← fg.jpg
  let tags ← exif_tags collab.readTags j
  let sub ← get_dest_subfolder collab.parseDate collab.camHash tags
  let alt ← alt_folder fs sub 2 1
  let d ← exif_date collab.parseDate tags
  let fg2 := { fg with dest_subfolder := some sub
                     , dest_subfolderalt := some alt
                     , exif_date := some d }
  if !copyplan.in_lookback d then
    return (metrics.inc_too_old (some fg2.files), copyplan)
  let total ← sumSizes fs fg2.files
  return (metrics, copyplan.add { fg2 with total_bytes := some total })

/-- The collision probe of `try_copy`: sets the sticky `use_alt_folder` flag
when a member's destination is a directory, or is a file of the wrong size. -/
def collision_probe (fs : FS) (destfolder : String) :
    List String → Except Err Bool
  | [] => Except.ok false
  | f :: rest => do
      let fdest := joinPath destfolder (basename f)
      let flag ←
        if fs.isdir fdest then pure true
        else if fs.isfile fdest then do
          let sf ← fs.getsize f
          let sd ← fs.getsize fdest
          pure (decide (sf ≠ sd))
        else pure false
      let restFlag ← collision_probe fs destfolder rest
      Except.ok (flag || restFlag)

/-- The per-file copy loop of `try_copy`.  `ioFail f` tells whether the
`shutil.copy` of source `f` raises `IOError`; a missing source makes
`shutil.copy` raise `FileNotFoundError ⊆ IOError`, caught the same way. -/
def copy_files (ioFail : String → Bool) (destfolder : String) :
    List String → Metrics × CopyLog × FS → Except Err (Metrics × CopyLog × FS)
  | [], st => Except.ok st
  | f :: rest, (metrics, copylog, fs) =>
      let fdest := joinPath destfolder (basename f)
      if fs.isfile fdest then do
        let sf ← fs.getsize f
        let sd ← fs.getsize fdest
        if sf = sd then
          copy_files ioFail destfolder rest
            ({ metrics with file_existed := metrics.file_existed ++ [f] }, copylog, fs)
        else
          Except.error Err.logicError
      else
        if fs.isfile f && !ioFail f then do
          let n ← fs.getsize f
          let copylog2 ← copylog.add f
          copy_files ioFail destfolder rest
            (metrics.inc_copied none, copylog2, fs.set fdest (FSEntry.file n))
        else
          copy_files ioFail destfolder rest
            ({ metrics with failed := metrics.failed ++ [fdest] }, copylog, fs)

/-- `try_copy(metrics, copyplan, copylog, fg)`. -/
def try_copy (ioFail : String → Bool) (metrics : Metrics) (copyplan : CopyPlan)
    (copylog : CopyLog) (fg : FileGroup) (fs : FS) :
    Except Err (Metrics × CopyLog × FS) := do
  let destfolder := joinPath copyplan.destpath (fg.dest_subfolder.getD "")
  let fs1 ←
    if !fs.isdir destfolder then fs.makedirs destfolder else pure fs
  let use_alt ← collision_probe fs1 destfolder fg.files
  if use_alt then
    let altfolder := joinPath copyplan.destpath (fg.dest_subfolderalt.getD "")
    let fs2 ← fs1.makedirs altfolder
    copy_files ioFail altfolder fg.files
      ({ metrics with alt_folders := metrics.alt_folders ++ [altfolder] }, copylog, fs2)
  else
    copy_files ioFail destfolder fg.files (metrics, copylog, fs1)

/-- One step of the grouping loop: `groups[k].append(p)` on the keyed
association list that models the `defaultdict(FileGroup)`. -/
def groupsInsert (k p : String) :
    List (String × FileGroup) → Except Err (List (String × FileGroup))
  | [] => do
      let g ← FileGroup.empty.append p
      Except.ok [(k, g)]
  | (k', g') :: rest =>
      if k' = k then do
        let g ← g'.append p
        Except.ok ((k', g) :: rest)
      else do
        let r ← groupsInsert k p rest
        Except.ok ((k', g') :: r)

/-- The grouping loop of `copy_pictures`, from a given accumulator. -/
def group_pics_from :
    List String → List (String × FileGroup) → Except Err (List (String × FileGroup))
  | [], acc => Except.ok acc
  | p :: rest, acc => do
      let acc2 ← groupsInsert (FileGroup.basepath p) p acc
      group_pics_from rest acc2

/-- The grouping phase of `copy_pictures`:
`for p in picfiles: groups[FileGroup.basepath(p)].append(p)`. -/
def group_pics (picfiles : List String) : Except Err (List (String × FileGroup)) :=
  group_pics_from picfiles []

/-! ### Basic lemmas about the filesystem and string model -/

theorem String.eq_of_data_eq {a b : String} (h : a.data = b.data) : a = b :=
  congrArg String.mk h

theorem data_joinPath (a b : String) : (joinPath a b).data = a.data ++ '/' :: b.data := by
  simp [joinPath, String.data_append]

theorem FS.lookup_eq_none_of_existsp {fs : FS} {p : String}
    (h : fs.existsp p = false) : fs.lookup p = none := by
  simpa [FS.existsp, Option.isSome_iff_exists] using h

theorem FS.isfile_eq_false_of_lookup_none {fs : FS} {p : String}
    (h : fs.lookup p = none) : fs.isfile p = false := by
  simp [FS.isfile, h]

theorem FS.getsize_eq_ok {fs : FS} {p : String}
    (h : fs.isfile p = true) : fs.getsize p = Except.ok (fs.fsize p) := by
  unfold FS.isfile at h
  unfold FS.getsize FS.fsize
  rcases hl : fs.lookup p with _ | e
  · rw [hl] at h; simp at h
  · rcases e with n | _
    · rfl
    · rw [hl] at h; simp at h

theorem FS.lookup_set (fs : FS) (p q : String) (e : FSEntry) :
    (fs.set p e).lookup q = if q = p then some e else fs.lookup q := by
  by_cases h : q = p
  · simp [FS.set, FS.lookup, h]
  · have hbeq : (p == q) = false := by
      simp only [beq_eq_false_iff_ne, ne_eq]
      exact fun hh => h hh.symm
    simp [FS.set, FS.lookup, List.find?, hbeq, h]

/-- A fresh `Metrics()` (counters unset, lists empty, as `__init__` leaves them). -/
def metrics0 : Metrics :=
  ⟨none, none, none, 0, [], [], none, none, []⟩

/-! ### C3: `already_copied` -/

/-- C3: for every loaded ledger, `already_copied` returns true iff every given
path is in the merged in-memory set, returns false iff some given path is
absent, and raises `ValueError` on an empty argument list; a path is in the
merged set iff some ".log" file of the ledger folder has a line whose
stripped form is that path. -/
theorem C3_already_copied_spec (dir : List LogFile) (paths : List String)
    (hne : paths ≠ []) :
    (CopyLog.load dir).already_copied [] = Except.error Err.valueError ∧
    ((CopyLog.load dir).already_copied paths = Except.ok true ↔
      ∀ p ∈ paths, p ∈ (CopyLog.load dir).copied_files) ∧
    ((CopyLog.load dir).already_copied paths = Except.ok false ↔
      ∃ p ∈ paths, p ∉ (CopyLog.load dir).copied_files) ∧
    (∀ p, p ∈ (CopyLog.load dir).copied_files ↔
      ∃ lf ∈ dir, endswith (plower lf.name) ".log" = true ∧
        ∃ l ∈ lf.lines, pstrip l = p) := by
  have hisEmpty : paths.isEmpty = false := by
    cases paths with
    | nil => exact absurd rfl hne
    | cons a l => rfl
  refine ⟨by simp [CopyLog.already_copied], ?_, ?_, ?_⟩
  · simp [CopyLog.already_copied, hisEmpty, List.all_eq_true, List.elem_iff]
  · simp only [CopyLog.already_copied, hisEmpty, Bool.false_eq_true, if_false,
      Except.ok.injEq, List.all_eq_false]
    constructor
    · rintro ⟨p, hp, hmem⟩
      exact ⟨p, hp, by simpa [List.elem_iff] using hmem⟩
    · rintro ⟨p, hp, hmem⟩
      exact ⟨p, hp, by simpa [List.elem_iff] using hmem⟩
  · intro p
    simp only [CopyLog.load, List.mem_flatten, List.mem_map, List.mem_filter]
    constructor
    · rintro ⟨l, ⟨lf, ⟨hlf, hlog⟩, rfl⟩, hp⟩
      rcases List.mem_map.mp hp with ⟨line, hline, rfl⟩
      exact ⟨lf, hlf, hlog, line, hline, rfl⟩
    · rintro ⟨lf, hlf, hlog, line, hline, rfl⟩
      exact ⟨lf.lines.map pstrip, ⟨lf, ⟨hlf, hlog⟩, rfl⟩, List.mem_map_of_mem _ hline⟩

/-- Witness for C3 at a concrete ledger folder and path list. -/
theorem C3_witness :
    (CopyLog.load [⟨"a.log", [" x "]⟩]).already_copied ["x", "y"] = Except.ok false ↔
      ∃ p ∈ ["x", "y"], p ∉ (CopyLog.load [⟨"a.log", [" x "]⟩]).copied_files :=
  (C3_already_copied_spec [⟨"a.log", [" x "]⟩] ["x", "y"] (by decide)).2.2.1

/-! ### C7: the frame property of `CopyLog.add` -/

/-- C7: on an acquired ledger, `add p` appends `p` as one line of the current
run's log file and leaves the in-memory `copied_files` set unchanged, so
every `already_copied` query answers the same before and after the `add`. -/
theorem C7_add_frame (c : CopyLog) (p : String) (c2 : CopyLog)
    (hent : c.entered = true) (h : c.add p = Except.ok c2) :
    c2.logfile = c.logfile ++ [p] ∧
    c2.copied_files = c.copied_files ∧
    (∀ paths, c2.already_copied paths = c.already_copied paths) := by
  simp only [CopyLog.add, hent, if_true] at h
  injection h with h
  subst h
  exact ⟨rfl, rfl, fun paths => by simp [CopyLog.already_copied]⟩

/-- Witness for C7 at a concrete acquired ledger. -/
theorem C7_witness :
    (⟨["x"], ["a", "b"], true⟩ : CopyLog).logfile =
        (⟨["x"], ["a"], true⟩ : CopyLog).logfile ++ ["b"] ∧
    (⟨["x"], ["a", "b"], true⟩ : CopyLog).copied_files =
        (⟨["x"], ["a"], true⟩ : CopyLog).copied_files ∧
    (∀ paths, CopyLog.already_copied ⟨["x"], ["a", "b"], true⟩ paths =
        CopyLog.already_copied ⟨["x"], ["a"], true⟩ paths) :=
  C7_add_frame ⟨["x"], ["a"], true⟩ "b" ⟨["x"], ["a", "b"], true⟩ rfl rfl

/-! ### C10: `CopyPlan.__init__` validation -/

/-- C10 counterexample: a supplied max-shot count of `0` is below 1, yet the
constructor succeeds, because `if maxpics and maxpics < 1` treats `0` as
falsy and never raises. -/
theorem C10_counterexample :
    CopyPlan.make 7 ⟨2010, 6, 20, 0, 0, 0⟩ false (some 0) =
      Except.ok ⟨7, ⟨2010, 6, 20, 0, 0, 0⟩, false, [], 0, none, "", some 0⟩ := by
  rfl

/-- C10 (amended): construction raises `ValueError` iff `lookback_days < 1`
or a supplied max-shot count is nonzero and below 1; hence every constructed
plan has `lookback_days ≥ 1` and a max-shot count that is absent, zero, or
at least 1. -/
theorem C10_make_spec (lb : Int) (dt : DateTime) (force : Bool) (mp : Option Int) :
    (CopyPlan.make lb dt force mp = Except.error Err.valueError ↔
      lb < 1 ∨ ∃ m, mp = some m ∧ m ≠ 0 ∧ m < 1) ∧
    (∀ p, CopyPlan.make lb dt force mp = Except.ok p →
      1 ≤ p.lookback_days ∧
      (p.maxpics = none ∨ p.maxpics = some 0 ∨ ∃ m, p.maxpics = some m ∧ 1 ≤ m)) := by
  by_cases h1 : lb < 1
  · refine ⟨by simp [CopyPlan.make, h1], fun p hp => ?_⟩
    rw [CopyPlan.make.eq_def, if_pos h1] at hp
    exact Except.noConfusion hp
  · cases mp with
    | none =>
        refine ⟨?_, fun p hp => ?_⟩
        · rw [CopyPlan.make, if_neg h1, if_neg (by simp)]
          simp [h1]
        · rw [CopyPlan.make, if_neg h1, if_neg (by simp)] at hp
          injection hp with hp
          subst hp
          exact ⟨by exact (by omega : (1 : Int) ≤ lb), Or.inl rfl⟩
    | some m =>
        by_cases h2 : m ≠ 0 ∧ m < 1
        · have hb : (decide (m ≠ 0) && decide (m < 1)) = true := by
            simp [h2.1, h2.2]
          refine ⟨?_, fun p hp => ?_⟩
          · rw [CopyPlan.make, if_neg h1, if_pos hb]
            exact ⟨fun _ => Or.inr ⟨m, rfl, h2.1, h2.2⟩, fun _ => rfl⟩
          · rw [CopyPlan.make, if_neg h1, if_pos hb] at hp
            exact Except.noConfusion hp
        · have hb : (decide (m ≠ 0) && decide (m < 1)) = false := by
            rcases Classical.em (m = 0) with h3 | h3
            · simp [h3]
            · have h4 : ¬ m < 1 := fun hc => h2 ⟨h3, hc⟩
              simp [h4]
          refine ⟨?_, fun p hp => ?_⟩
          · rw [CopyPlan.make, if_neg h1, if_neg (by rw [hb]; exact Bool.false_ne_true)]
            constructor
            · intro hc; exact Except.noConfusion hc
            · rintro (hc | ⟨m', hm', hm0, hm1⟩)
              · exact absurd hc h1
              · injection hm' with hm'
                subst hm'
                exact absurd ⟨hm0, hm1⟩ h2
          · rw [CopyPlan.make, if_neg h1, if_neg (by rw [hb]; exact Bool.false_ne_true)] at hp
            injection hp with hp
            subst hp
            refine ⟨by exact (by omega : (1 : Int) ≤ lb), ?_⟩
            rcases Classical.em (m = 0) with h3 | h3
            · subst h3; exact Or.inr (Or.inl rfl)
            · have h4 : ¬ m < 1 := fun hc => h2 ⟨h3, hc⟩
              exact Or.inr (Or.inr ⟨m, rfl, by omega⟩)

/-- Witness for C10 (amended) at a concrete constructed plan. -/
theorem C10_witness :
    1 ≤ (⟨7, ⟨2010, 6, 20, 0, 0, 0⟩, false, [], 0, none, "", none⟩ : CopyPlan).lookback_days ∧
    ((⟨7, ⟨2010, 6, 20, 0, 0, 0⟩, false, [], 0, none, "", none⟩ : CopyPlan).maxpics = none ∨
     (⟨7, ⟨2010, 6, 20, 0, 0, 0⟩, false, [], 0, none, "", none⟩ : CopyPlan).maxpics = some 0 ∨
     ∃ m, (⟨7, ⟨2010, 6, 20, 0, 0, 0⟩, false, [], 0, none, "", none⟩ : CopyPlan).maxpics = some m ∧ 1 ≤ m) :=
  (C10_make_spec 7 ⟨2010, 6, 20, 0, 0, 0⟩ false none).2 _ rfl

/-! ### C4: the lookback window -/

/-- C4: `in_lookback` answers true iff the date difference
`(started.date() - capture.date()).days` is at most `lookback_days`; any
future-dated capture (negative difference) is in-window for a constructed
plan (`lookback_days ≥ 1`); and with start 2010-06-20 and a 3-day window,
captures 0, 1, 2, 3 days old are in-window while 4 days old is not. -/
theorem C4_in_lookback_spec :
    (∀ (plan : CopyPlan) (dt : DateTime),
      plan.in_lookback dt = true ↔
        dateDiffDays plan.started_dt dt ≤ plan.lookback_days) ∧
    (∀ (plan : CopyPlan) (dt : DateTime),
      1 ≤ plan.lookback_days → dateDiffDays plan.started_dt dt < 0 →
        plan.in_lookback dt = true) ∧
    (∀ plan : CopyPlan, plan.started_dt = ⟨2010, 6, 20, 0, 0, 0⟩ →
      plan.lookback_days = 3 →
      (plan.in_lookback ⟨2010, 6, 20, 0, 0, 0⟩ = true ∧
       plan.in_lookback ⟨2010, 6, 19, 0, 0, 0⟩ = true ∧
       plan.in_lookback ⟨2010, 6, 18, 0, 0, 0⟩ = true ∧
       plan.in_lookback ⟨2010, 6, 17, 0, 0, 0⟩ = true ∧
       plan.in_lookback ⟨2010, 6, 16, 0, 0, 0⟩ = false)) := by
  refine ⟨fun plan dt => by simp [CopyPlan.in_lookback],
          fun plan dt h1 h2 => by simp only [CopyPlan.in_lookback, decide_eq_true_eq]; omega,
          fun plan h1 h2 => ?_⟩
  simp only [CopyPlan.in_lookback, h1, h2]
  refine ⟨by decide, by decide, by decide, by decide, by decide⟩

/-- Witness for C4 at a concrete plan: the out-of-window boundary day. -/
theorem C4_witness :
    CopyPlan.in_lookback
      ⟨3, ⟨2010, 6, 20, 0, 0, 0⟩, false, [], 0, none, "", none⟩
      ⟨2010, 6, 16, 0, 0, 0⟩ = false :=
  (C4_in_lookback_spec.2.2 ⟨3, ⟨2010, 6, 20, 0, 0, 0⟩, false, [], 0, none, "", none⟩
    rfl rfl).2.2.2.2

/-! ### C6: per-file failure containment in the copy loop -/

/-- C6: in the copy loop, for a member file that does not already exist at
its destination: a successful copy appends its source path to the ledger's
log and bumps the copied counter, then the loop continues; a failed copy
records the destination path in the failed list, leaves the ledger alone,
propagates no error, and the loop continues with the remaining files. -/
theorem C6_copy_step (ioFail : String → Bool) (d f : String) (rest : List String)
    (m : Metrics) (c : CopyLog) (fs : FS)
    (hnotexist : fs.existsp (joinPath d (basename f)) = false)
    (hsrc : fs.isfile f = true)
    (hent : c.entered = true) :
    (ioFail f = false →
      copy_files ioFail d (f :: rest) (m, c, fs) =
        copy_files ioFail d rest
          (m.inc_copied none,
           { c with logfile := c.logfile ++ [f] },
           fs.set (joinPath d (basename f)) (FSEntry.file (fs.fsize f)))) ∧
    (ioFail f = true →
      copy_files ioFail d (f :: rest) (m, c, fs) =
        copy_files ioFail d rest
          ({ m with failed := m.failed ++ [joinPath d (basename f)] }, c, fs)) := by
  have hnf : fs.isfile (joinPath d (basename f)) = false :=
    FS.isfile_eq_false_of_lookup_none (FS.lookup_eq_none_of_existsp hnotexist)
  constructor
  · intro hok
    simp [copy_files, hnf, hsrc, hok, FS.getsize_eq_ok hsrc, CopyLog.add, hent,
      Bind.bind, Except.bind]
  · intro hfail
    simp [copy_files, hnf, hsrc, hfail]

/-- Witness for C6: one successful copy step at a concrete state. -/
theorem C6_witness :
    copy_files (fun _ => false) "dst" ["src/a.jpg"] (metrics0, ⟨[], [], true⟩, ⟨[("src/a.jpg", FSEntry.file 3)]⟩) =
      copy_files (fun _ => false) "dst" []
        (metrics0.inc_copied none,
         { (⟨[], [], true⟩ : CopyLog) with logfile := ([] : List String) ++ ["src/a.jpg"] },
         FS.set ⟨[("src/a.jpg", FSEntry.file 3)]⟩
           (joinPath "dst" (basename "src/a.jpg"))
           (FSEntry.file (FS.fsize ⟨[("src/a.jpg", FSEntry.file 3)]⟩ "src/a.jpg"))) :=
  (C6_copy_step (fun _ => false) "dst" "src/a.jpg" [] metrics0 ⟨[], [], true⟩
    ⟨[("src/a.jpg", FSEntry.file 3)]⟩ (by decide) (by decide) rfl).1 rfl

/-! ### C8: the alternate-folder search -/

/-- Characterization of the `for alt in range(k, k+n)` search loop. -/
theorem alt_search_spec (fs : FS) (s : String) (digits : Nat) :
    ∀ (n k : Nat),
      (alt_search fs s digits k n = Except.error Err.exhausted ↔
        ∀ j, k ≤ j → j < k + n → fs.isdir (altCandidate s digits j) = true) ∧
      (∀ c, alt_search fs s digits k n = Except.ok c ↔
        ∃ j, k ≤ j ∧ j < k + n ∧ c = altCandidate s digits j ∧
          fs.isdir (altCandidate s digits j) = false ∧
          ∀ i, k ≤ i → i < j → fs.isdir (altCandidate s digits i) = true) := by
  intro n
  induction n with
  | zero =>
      intro k
      refine ⟨⟨fun _ j h1 h2 => absurd h2 (by omega), fun _ => rfl⟩, fun c => ?_⟩
      constructor
      · intro h; exact Except.noConfusion h
      · rintro ⟨j, h1, h2, _⟩; exact absurd h2 (by omega)
  | succ n ih =>
      intro k
      by_cases hd : fs.isdir (altCandidate s digits k) = true
      · have hstep : alt_search fs s digits k (n + 1) = alt_search fs s digits (k + 1) n := by
          rw [alt_search, if_pos hd]
        constructor
        · rw [hstep, (ih (k + 1)).1]
          constructor
          · intro h j hj1 hj2
            rcases Nat.eq_or_lt_of_le hj1 with hj | hj
            · rw [← hj]; exact hd
            · exact h j hj (by omega)
          · intro h j hj1 hj2
            exact h j (by omega) (by omega)
        · intro c
          rw [hstep, (ih (k + 1)).2 c]
          constructor
          · rintro ⟨j, hj1, hj2, hc, hnd, hall⟩
            refine ⟨j, by omega, by omega, hc, hnd, fun i hi1 hi2 => ?_⟩
            rcases Nat.eq_or_lt_of_le hi1 with hi | hi
            · rw [← hi]; exact hd
            · exact hall i hi hi2
          · rintro ⟨j, hj1, hj2, hc, hnd, hall⟩
            have hjk : j ≠ k := fun h => by rw [h] at hnd; rw [hd] at hnd; cases hnd
            refine ⟨j, by omega, by omega, hc, hnd, fun i hi1 hi2 => hall i (by omega) hi2⟩
      · have hstep : alt_search fs s digits k (n + 1) = Except.ok (altCandidate s digits k) := by
          rw [alt_search, if_neg hd]
        have hd' : fs.isdir (altCandidate s digits k) = false := by
          cases h : fs.isdir (altCandidate s digits k)
          · rfl
          · exact absurd h hd
        constructor
        · rw [hstep]
          constructor
          · intro h; exact Except.noConfusion h
          · intro h
            exact absurd (h k (Nat.le_refl k) (by omega)) (by rw [hd']; exact Bool.false_ne_true)
        · intro c
          rw [hstep]
          constructor
          · intro h
            injection h with h
            exact ⟨k, Nat.le_refl k, by omega, h.symm, hd', fun i hi1 hi2 => absurd hi2 (by omega)⟩
          · rintro ⟨j, hj1, hj2, hc, hnd, hall⟩
            rcases Nat.eq_or_lt_of_le hj1 with hj | hj
            · rw [← hj] at hc; rw [hc]
            · exact absurd (hall k (Nat.le_refl k) hj) (by rw [hd']; exact Bool.false_ne_true)

/-- C8 counterexample: with `X_1` the only directory on disk,
`alt_folder("X/", digits=1, start=1)` returns `"X_2"` — not the first
available candidate `base_name + "_" + zfill(k)` = `"X/_1"` that the claim's
candidate formula predicts, because the source first strips trailing
slashes from `base_name`. -/
theorem C8_counterexample :
    alt_folder ⟨[("X_1", FSEntry.dir)]⟩ "X/" 1 1 = Except.ok "X_2" ∧
    FS.isdir ⟨[("X_1", FSEntry.dir)]⟩ "X/_1" = false ∧
    ("X_2" : String) ≠ "X/_1" := by
  refine ⟨by rfl, by decide, by decide⟩

/-- C8 (amended): `alt_folder` raises `ValueError` when `base_name` is empty,
`digits < 1` or `start < 0`; otherwise it strips trailing slashes from
`base_name` and tries `stripped + "_" + zfill(k, digits)` for
`k = start, ..., 10^digits - 1` in increasing order, returning the first
candidate that is not an existing directory, and raising the exhaustion
error when every candidate in the range is a directory. -/
theorem C8_alt_folder_spec (fs : FS) (name : String) (digits start : Int) :
    ((name = "" ∨ digits < 1 ∨ start < 0) →
      alt_folder fs name digits start = Except.error Err.valueError) ∧
    (name ≠ "" → 1 ≤ digits → 0 ≤ start →
      ((alt_folder fs name digits start = Except.error Err.exhausted ↔
        ∀ k, start.toNat ≤ k → k < 10 ^ digits.toNat →
          fs.isdir (altCandidate (rstripSlash name) digits.toNat k) = true) ∧
      (∀ c, alt_folder fs name digits start = Except.ok c ↔
        ∃ k, start.toNat ≤ k ∧ k < 10 ^ digits.toNat ∧
          c = altCandidate (rstripSlash name) digits.toNat k ∧
          fs.isdir (altCandidate (rstripSlash name) digits.toNat k) = false ∧
          ∀ j, start.toNat ≤ j → j < k →
            fs.isdir (altCandidate (rstripSlash name) digits.toNat j) = true))) := by
  constructor
  · intro h
    by_cases hn : name = ""
    · rw [alt_folder, if_pos hn]
    · have hds : (decide (digits < 1) || decide (start < 0)) = true := by
        rcases h with h | h | h
        · exact absurd h hn
        · simp [h]
        · simp [h]
      rw [alt_folder, if_neg hn, if_pos hds]
  · intro hn h1 h0
    have hds : ¬ ((decide (digits < 1) || decide (start < 0)) = true) := by
      simp only [Bool.or_eq_true, decide_eq_true_eq, not_or]
      constructor <;> omega
    rw [alt_folder, if_neg hn, if_neg hds]
    have hspec := alt_search_spec fs (rstripSlash name) digits.toNat
      (10 ^ digits.toNat - start.toNat) start.toNat
    constructor
    · rw [hspec.1]
      constructor
      · intro h k hk1 hk2; exact h k hk1 (by omega)
      · intro h k hk1 hk2; exact h k hk1 (by omega)
    · intro c
      rw [hspec.2 c]
      constructor
      · rintro ⟨k, hk1, hk2, hc, hnd, hall⟩
        exact ⟨k, hk1, by omega, hc, hnd, hall⟩
      · rintro ⟨k, hk1, hk2, hc, hnd, hall⟩
        exact ⟨k, hk1, by omega, hc, hnd, hall⟩

/-- Witness for C8 (amended): on an empty disk the first candidate is free. -/
theorem C8_witness :
    alt_folder ⟨[]⟩ "X" 1 1 = Except.ok "X_1" :=
  (((C8_alt_folder_spec ⟨[]⟩ "X" 1 1).2 (by decide) (by decide) (by decide)).2 "X_1").mpr
    ⟨1, by decide, by decide, by decide, by decide, fun j hj1 hj2 => absurd (by omega : j < j) (by omega)⟩

/-! ### C5: grouping is a partition by base path -/

theorem FileGroup.append_empty (p : String) :
    FileGroup.empty.append p =
      Except.ok ⟨[p], some (FileGroup.basepath p), none, none, none, none⟩ := rfl

theorem FileGroup.append_same {g : FileGroup} {k : String} (p : String)
    (hb : g.base_path = some k) (hk : FileGroup.basepath p = k) :
    g.append p = Except.ok { g with files := g.files ++ [p] } := by
  simp only [FileGroup.append, hb]
  rw [if_pos hk.symm]

theorem FileGroup.append_mismatch (g : FileGroup) (p b : String)
    (hb : g.base_path = some b) (hne : FileGroup.basepath p ≠ b) :
    g.append p = Except.error Err.groupMismatch := by
  simp only [FileGroup.append, hb]
  rw [if_neg (fun h => hne h.symm)]

/-- The effect of `groups[k].append(p)` on the keyed association list:
update the first entry with key `k`, or append a fresh group. -/
def updFirst (k p : String) : List (String × FileGroup) → List (String × FileGroup)
  | [] => [(k, ⟨[p], some k, none, none, none, none⟩)]
  | (k', g') :: rest =>
      if k' = k then (k', { g' with files := g'.files ++ [p] }) :: rest
      else (k', g') :: updFirst k p rest

theorem groupsInsert_eq_updFirst (p : String) :
    ∀ acc, (∀ kg ∈ acc, (kg : String × FileGroup).2.base_path = some kg.1) →
      groupsInsert (FileGroup.basepath p) p acc =
        Except.ok (updFirst (FileGroup.basepath p) p acc) := by
  intro acc
  induction acc with
  | nil => intro _; rfl
  | cons kg rest ih =>
      intro h
      obtain ⟨k', g'⟩ := kg
      by_cases hk : k' = FileGroup.basepath p
      · have hb : g'.base_path = some k' := (h (k', g') (List.mem_cons_self _ _))
        rw [groupsInsert, if_pos hk, updFirst, if_pos hk]
        rw [FileGroup.append_same p hb hk.symm]
        rfl
      · have ih' := ih (fun kg hkg => h kg (List.mem_cons_of_mem _ hkg))
        rw [groupsInsert, if_neg hk, updFirst, if_neg hk, ih']
        rfl

theorem updFirst_not_mem (k p : String) :
    ∀ acc, k ∉ acc.map Prod.fst →
      updFirst k p acc = acc ++ [(k, ⟨[p], some k, none, none, none, none⟩)] := by
  intro acc
  induction acc with
  | nil => intro _; rfl
  | cons kg rest ih =>
      intro h
      obtain ⟨k', g'⟩ := kg
      have hk : k' ≠ k := by
        intro he; exact h (by simp [he])
      have hrest : k ∉ rest.map Prod.fst := by
        intro hm; exact h (by simp [hm])
      rw [updFirst, if_neg hk, ih hrest]
      rfl

theorem updFirst_mem (k p : String) :
    ∀ acc, (acc.map Prod.fst).Nodup → k ∈ acc.map Prod.fst →
      ∃ l1 g l2, acc = l1 ++ (k, g) :: l2 ∧ k ∉ l1.map Prod.fst ∧ k ∉ l2.map Prod.fst ∧
        updFirst k p acc = l1 ++ (k, { g with files := g.files ++ [p] }) :: l2 := by
  intro acc
  induction acc with
  | nil => intro _ h; simp at h
  | cons kg rest ih =>
      intro hnd hmem
      obtain ⟨k', g'⟩ := kg
      have hnd' : k' ∉ rest.map Prod.fst ∧ (rest.map Prod.fst).Nodup := by
        simpa [List.nodup_cons] using hnd
      by_cases hk : k' = k
      · subst hk
        exact ⟨[], g', rest, by simp, by simp, by simpa using hnd'.1,
          by rw [updFirst, if_pos rfl]; rfl⟩
      · have hmem' : k ∈ rest.map Prod.fst := by
          rw [List.map_cons] at hmem
          rcases List.mem_cons.mp hmem with h | h
          · exact absurd h.symm hk
          · exact h
        obtain ⟨l1, g, l2, heq, h1, h2, hupd⟩ := ih hnd'.2 hmem'
        refine ⟨(k', g') :: l1, g, l2, by rw [heq]; rfl, ?_, h2, ?_⟩
        · simp only [List.map_cons, List.mem_cons, not_or]
          exact ⟨fun h => hk h.symm, h1⟩
        · rw [updFirst, if_neg hk, hupd]
          rfl

/-- The loop invariant of the grouping phase: after processing the prefix
`pre`, the accumulator has pairwise-distinct keys, its keys are exactly the
base paths seen so far, and each group holds its base path and exactly the
processed paths with that base path, in order. -/
def GroupsInv (pre : List String) (acc : List (String × FileGroup)) : Prop :=
  (acc.map Prod.fst).Nodup ∧
  (∀ b, b ∈ acc.map Prod.fst ↔ b ∈ pre.map FileGroup.basepath) ∧
  (∀ kg ∈ acc, (kg : String × FileGroup).2.base_path = some kg.1 ∧
    kg.2.files = pre.filter (fun q => FileGroup.basepath q == kg.1))


theorem groups_step (pre : List String) (p : String) (acc : List (String × FileGroup))
    (hinv : GroupsInv pre acc) :
    ∃ acc', groupsInsert (FileGroup.basepath p) p acc = Except.ok acc' ∧
      GroupsInv (pre ++ [p]) acc' := by
  obtain ⟨hnd, hkeys, hent⟩ := hinv
  have hins := groupsInsert_eq_updFirst p acc (fun kg hkg => (hent kg hkg).1)
  refine ⟨updFirst (FileGroup.basepath p) p acc, hins, ?_⟩
  have hbp_mem : ∀ b : String, b ∈ (pre ++ [p]).map FileGroup.basepath ↔
      b ∈ pre.map FileGroup.basepath ∨ b = FileGroup.basepath p := by
    intro b
    simp [List.mem_append, eq_comm]
  by_cases hmem : FileGroup.basepath p ∈ acc.map Prod.fst
  · obtain ⟨l1, g, l2, heq, h1, h2, hupd⟩ := updFirst_mem _ p acc hnd hmem
    rw [hupd]
    have hgacc : (FileGroup.basepath p, g) ∈ acc := by
      rw [heq]; exact List.mem_append_right _ (List.mem_cons_self _ _)
    have hkeys_eq :
        (l1 ++ (FileGroup.basepath p, { g with files := g.files ++ [p] }) :: l2).map Prod.fst
          = acc.map Prod.fst := by
      rw [heq]; simp
    refine ⟨by rw [hkeys_eq]; exact hnd, ?_, ?_⟩
    · intro b
      rw [hkeys_eq, hbp_mem b]
      constructor
      · intro h; exact Or.inl ((hkeys b).mp h)
      · rintro (h | h)
        · exact (hkeys b).mpr h
        · rw [h]; exact hmem
    · intro kg hkg
      rcases List.mem_append.mp hkg with hkg1 | hkg1
      · have hold : kg ∈ acc := by
          rw [heq]; exact List.mem_append_left _ hkg1
        have hk_ne : kg.1 ≠ FileGroup.basepath p := by
          intro he
          exact h1 (he ▸ List.mem_map_of_mem Prod.fst hkg1)
        refine ⟨(hent kg hold).1, ?_⟩
        rw [List.filter_append, (hent kg hold).2]
        have hb0 : (FileGroup.basepath p == kg.1) = false :=
          beq_eq_false_iff_ne.mpr (fun h => hk_ne h.symm)
        have : [p].filter (fun q => FileGroup.basepath q == kg.1) = [] := by
          simp [hb0]
        rw [this, List.append_nil]
      · rcases List.mem_cons.mp hkg1 with hkg2 | hkg2
        · subst hkg2
          refine ⟨(hent _ hgacc).1, ?_⟩
          rw [List.filter_append, (hent _ hgacc).2]
          have : [p].filter (fun q => FileGroup.basepath q == FileGroup.basepath p) = [p] := by
            simp
          rw [this]
        · have hold : kg ∈ acc := by
            rw [heq]; exact List.mem_append_right _ (List.mem_cons_of_mem _ hkg2)
          have hk_ne : kg.1 ≠ FileGroup.basepath p := by
            intro he
            exact h2 (he ▸ List.mem_map_of_mem Prod.fst hkg2)
          refine ⟨(hent kg hold).1, ?_⟩
          rw [List.filter_append, (hent kg hold).2]
          have hb0 : (FileGroup.basepath p == kg.1) = false :=
            beq_eq_false_iff_ne.mpr (fun h => hk_ne h.symm)
          have : [p].filter (fun q => FileGroup.basepath q == kg.1) = [] := by
            simp [hb0]
          rw [this, List.append_nil]
  · rw [updFirst_not_mem _ p acc hmem]
    have hfresh : FileGroup.basepath p ∉ pre.map FileGroup.basepath :=
      fun h => hmem ((hkeys _).mpr h)
    refine ⟨?_, ?_, ?_⟩
    · rw [List.map_append]
      simp only [List.map_cons, List.map_nil]
      rw [List.nodup_append]
      refine ⟨hnd, List.nodup_singleton _, ?_⟩
      intro a ha hb
      rw [List.mem_singleton] at hb
      subst hb
      exact hmem ha
    · intro b
      rw [List.map_append, List.mem_append, hbp_mem b]
      simp only [List.map_cons, List.map_nil, List.mem_singleton]
      constructor
      · rintro (h | h)
        · exact Or.inl ((hkeys b).mp h)
        · exact Or.inr h
      · rintro (h | h)
        · exact Or.inl ((hkeys b).mpr h)
        · exact Or.inr h
    · intro kg hkg
      rcases List.mem_append.mp hkg with hkg1 | hkg1
      · have hk_ne : kg.1 ≠ FileGroup.basepath p := by
          intro he
          exact hmem (he ▸ List.mem_map_of_mem Prod.fst hkg1)
        refine ⟨(hent kg hkg1).1, ?_⟩
        rw [List.filter_append, (hent kg hkg1).2]
        have hb0 : (FileGroup.basepath p == kg.1) = false :=
          beq_eq_false_iff_ne.mpr (fun h => hk_ne h.symm)
        have : [p].filter (fun q => FileGroup.basepath q == kg.1) = [] := by
          simp [hb0]
        rw [this, List.append_nil]
      · rw [List.mem_singleton] at hkg1
        subst hkg1
        refine ⟨rfl, ?_⟩
        have hpre : pre.filter (fun q => FileGroup.basepath q == FileGroup.basepath p) = [] := by
          rw [List.filter_eq_nil_iff]
          intro q hq
          simp only [beq_eq_false_iff_ne, ne_eq, beq_iff_eq]
          intro he
          exact hfresh (he ▸ List.mem_map_of_mem FileGroup.basepath hq)
        rw [List.filter_append, hpre, List.nil_append]
        simp

theorem group_pics_from_inv :
    ∀ (pics pre : List String) (acc : List (String × FileGroup)), GroupsInv pre acc →
      ∃ gs, group_pics_from pics acc = Except.ok gs ∧ GroupsInv (pre ++ pics) gs := by
  intro pics
  induction pics with
  | nil =>
      intro pre acc h
      exact ⟨acc, rfl, by simpa using h⟩
  | cons p rest ih =>
      intro pre acc h
      obtain ⟨acc', hins, hinv'⟩ := groups_step pre p acc h
      obtain ⟨gs, hrun, hinv''⟩ := ih (pre ++ [p]) acc' hinv'
      refine ⟨gs, ?_, ?_⟩
      · rw [group_pics_from, hins]
        simpa using hrun
      · rw [List.append_assoc] at hinv''
        exact hinv''

/-- C5: grouping partitions the input by base path: the grouping loop
succeeds, its keys are pairwise distinct and are exactly the base paths of
the input, each group records its key as `base_path` and holds exactly the
input paths with that base path in input order — so every input path appears
in exactly one group (the one keyed by its own base path), none lost or
duplicated — and appending a path whose base path differs from a group's
established base path raises the invariant-violation error. -/
theorem C5_grouping_partition (pics : List String) :
    (∃ gs, group_pics pics = Except.ok gs ∧
      (gs.map Prod.fst).Nodup ∧
      (∀ b, b ∈ gs.map Prod.fst ↔ b ∈ pics.map FileGroup.basepath) ∧
      (∀ kg ∈ gs, (kg : String × FileGroup).2.base_path = some kg.1 ∧
        kg.2.files = pics.filter (fun q => FileGroup.basepath q == kg.1)) ∧
      (∀ q ∈ pics, ∀ kg ∈ gs,
        (q ∈ (kg : String × FileGroup).2.files ↔ kg.1 = FileGroup.basepath q))) ∧
    (∀ (g : FileGroup) (p b : String),
      g.base_path = some b → FileGroup.basepath p ≠ b →
      g.append p = Except.error Err.groupMismatch) := by
  constructor
  · have h0 : GroupsInv [] [] := ⟨List.nodup_nil, by simp, by simp⟩
    obtain ⟨gs, hrun, hinv⟩ := group_pics_from_inv pics [] [] h0
    rw [List.nil_append] at hinv
    obtain ⟨hnd, hkeys, hent⟩ := hinv
    refine ⟨gs, by rw [group_pics]; exact hrun, hnd, hkeys, hent, ?_⟩
    intro q hq kg hkg
    rw [(hent kg hkg).2, List.mem_filter]
    constructor
    · rintro ⟨_, hb⟩
      exact (beq_iff_eq.mp hb).symm
    · intro hb
      exact ⟨hq, beq_iff_eq.mpr hb.symm⟩
  · intro g p b hb hne
    exact FileGroup.append_mismatch g p b hb hne

/-- Witness for C5: a concrete mismatched append raises. -/
theorem C5_witness :
    FileGroup.append ⟨["a/b.jpg"], some "a/b", none, none, none, none⟩ "c/d.nef" =
      Except.error Err.groupMismatch :=
  (C5_grouping_partition ["a/b.jpg"]).2 ⟨["a/b.jpg"], some "a/b", none, none, none, none⟩
    "c/d.nef" "a/b" rfl (by decide)

/-! ### C1: round-trip idempotence across runs -/

theorem plower_append (a b : String) : plower (a ++ b) = plower a ++ plower b := by
  apply String.eq_of_data_eq
  simp [plower, String.data_append]

theorem endswith_append_self (x s : String) : endswith (x ++ s) s = true := by
  rw [endswith, String.data_append]
  exact List.isSuffixOf_iff_suffix.mpr (List.suffix_append _ _)

/-- The current run's log file name always carries the ".log" suffix. -/
theorem logfileName_endswith (pid t : Nat) :
    endswith (plower (logfileName pid t)) ".log" = true := by
  rw [logfileName, plower_append]
  have hlow : plower ".log" = ".log" := by decide
  rw [hlow]
  exact endswith_append_self _ _

/-- Any stripped line of a recognised log file of the folder lands in the
merged set at load time. -/
theorem mem_load_of_line {dir : List LogFile} {lf : LogFile} {l : String}
    (hlf : lf ∈ dir) (hlog : endswith (plower lf.name) ".log" = true)
    (hl : l ∈ lf.lines) : pstrip l ∈ (CopyLog.load dir).copied_files := by
  simp only [CopyLog.load, List.mem_flatten, List.mem_map]
  exact ⟨lf.lines.map pstrip, ⟨lf, List.mem_filter.mpr ⟨hlf, hlog⟩, rfl⟩,
    List.mem_map_of_mem _ hl⟩

/-- C1 (amended): a shot group whose member files were all copied in run 1
(each source path appended as a line of run 1's log file) and whose member
paths are unchanged by whitespace stripping is recognised as already-copied
by a run 2 that loads the ledger folder containing run 1's log, and is
skipped — `schedule_copy` returns the plan unchanged (in particular the
approved list is not extended) — unless the plan's force flag is set. -/
theorem C1_roundtrip (dir : List LogFile) (pid t : Nat) (log1lines : List String)
    (collab : Collab) (fs : FS) (metrics : Metrics) (plan : CopyPlan) (fg : FileGroup)
    (hforce : plan.force = false)
    (hne : fg.files ≠ [])
    (hcopied : ∀ f ∈ fg.files, f ∈ log1lines)
    (hclean : ∀ f ∈ fg.files, pstrip f = f) :
    ∃ m', schedule_copy collab fs metrics plan
      (CopyLog.load (dir ++ [⟨logfileName pid t, log1lines⟩])) fg
        = Except.ok (m', plan) := by
  have hlf : (⟨logfileName pid t, log1lines⟩ : LogFile) ∈
      dir ++ [⟨logfileName pid t, log1lines⟩] :=
    List.mem_append_right _ (List.mem_singleton.mpr rfl)
  have hmem : ∀ f ∈ fg.files,
      f ∈ (CopyLog.load (dir ++ [⟨logfileName pid t, log1lines⟩])).copied_files := by
    intro f hf
    have h := mem_load_of_line hlf (logfileName_endswith pid t) (hcopied f hf)
    rwa [hclean f hf] at h
  have hisEmpty : fg.files.isEmpty = false := by
    simp [List.isEmpty_iff, hne]
  have htrue : (CopyLog.load (dir ++ [⟨logfileName pid t, log1lines⟩])).already_copied
      fg.files = Except.ok true := by
    rw [CopyLog.already_copied, if_neg (by rw [hisEmpty]; exact Bool.false_ne_true)]
    congr 1
    rw [List.all_eq_true]
    intro f hf
    exact List.elem_iff.mpr (hmem f hf)
  by_cases hcap : capReached plan = true
  · exact ⟨metrics, by simp [schedule_copy, hcap, pure, Except.pure]⟩
  · have hcap' : capReached plan = false := by
      cases h : capReached plan
      · rfl
      · exact absurd h hcap
    refine ⟨metrics.inc_already_copied (some fg.files), ?_⟩
    simp [schedule_copy, hcap', hforce, htrue, Bind.bind, Except.bind, pure, Except.pure]

/-- Witness for C1 (amended) at a concrete two-run scenario. -/
theorem C1_witness :
    ∃ m', schedule_copy
      ⟨fun _ => [], fun _ => Except.error Err.noExifDate, fun _ => ""⟩
      ⟨[]⟩ metrics0
      ⟨7, ⟨2010, 6, 20, 0, 0, 0⟩, false, [], 0, none, "/dst", none⟩
      (CopyLog.load ([] ++ [⟨logfileName 1 2, ["/vol/a.jpg", "/vol/a.nef"]⟩]))
      ⟨["/vol/a.jpg", "/vol/a.nef"], some "/vol/a", none, none, none, none⟩
        = Except.ok (m', ⟨7, ⟨2010, 6, 20, 0, 0, 0⟩, false, [], 0, none, "/dst", none⟩) :=
  C1_roundtrip [] 1 2 ["/vol/a.jpg", "/vol/a.nef"]
    ⟨fun _ => [], fun _ => Except.error Err.noExifDate, fun _ => ""⟩
    ⟨[]⟩ metrics0
    ⟨7, ⟨2010, 6, 20, 0, 0, 0⟩, false, [], 0, none, "/dst", none⟩
    ⟨["/vol/a.jpg", "/vol/a.nef"], some "/vol/a", none, none, none, none⟩
    rfl (by decide) (by decide) (by decide)

/-- Concrete shot group for the C1 counterexample: one member whose source
path carries a leading space (stripped away when the ledger is loaded). -/
def fgC1 : FileGroup :=
  ⟨[" a.jpg"], some (FileGroup.basepath " a.jpg"), none, some "sub", some "subalt", none⟩

/-- Run-1 filesystem: only the source file exists. -/
def fsC1 : FS := ⟨[(" a.jpg", FSEntry.file 3)]⟩

/-- Run-1 plan (force off). -/
def planC1run1 : CopyPlan := ⟨7, ⟨2010, 6, 20, 0, 0, 0⟩, false, [], 0, none, "/dst", none⟩

/-- Run-1 ledger: loaded from an empty folder, write handle acquired. -/
def logC1run1 : CopyLog := ⟨[], [], true⟩

/-- Filesystem after run 1: directory and copy created by `try_copy`. -/
def fsC1run2 : FS :=
  ⟨[("/dst/sub/ a.jpg", FSEntry.file 3), ("/dst/sub", FSEntry.dir), (" a.jpg", FSEntry.file 3)]⟩

/-- Run-2 collaborators: EXIF read and parse succeed deterministically. -/
def collabC1 : Collab :=
  ⟨fun _ => [("Image DateTime", "2010:06:20 00:00:00")],
   fun _ => Except.ok ⟨2010, 6, 20, 0, 0, 0⟩,
   fun _ => "h"⟩

/-- Run-2 plan (force off). -/
def planC1run2 : CopyPlan := ⟨7, ⟨2010, 6, 20, 0, 0, 0⟩, false, [], 0, none, "/dst", none⟩

/-- The ledger folder as run 2 sees it: exactly run 1's log file. -/
def dirC1 : List LogFile := [⟨logfileName 1 2, [" a.jpg"]⟩]

/-- C1 counterexample: the shot's only member `" a.jpg"` is copied
successfully in run 1 and its source path is appended to run 1's log, yet
run 2 — loading the same ledger folder, force off — does not recognise the
shot as already copied and extends the plan's approved list, because the
load step strips each logged line and `" a.jpg"` no longer matches. -/
theorem C1_counterexample :
    try_copy (fun _ => false) metrics0 planC1run1 logC1run1 fgC1 fsC1
      = Except.ok (⟨none, none, none, 1, [], [], none, none, []⟩,
          ⟨[], [" a.jpg"], true⟩, fsC1run2) ∧
    planC1run2.force = false ∧
    fgC1.files = [" a.jpg"] ∧
    (∃ m2 plan2,
      schedule_copy collabC1 fsC1run2 metrics0 planC1run2 (CopyLog.load dirC1) fgC1
        = Except.ok (m2, plan2) ∧ plan2.groups_to_copy ≠ []) := by
  refine ⟨by rfl, rfl, rfl, ⟨_, _, rfl, by decide⟩⟩

/-! ### Path lemmas for the copy executor -/

theorem basenameCL_no_slash (cs : List Char) : '/' ∉ basenameCL cs := by
  intro h
  rw [basenameCL, List.mem_reverse] at h
  have h2 := List.mem_takeWhile_imp h
  simp at h2

theorem basename_no_slash (p : String) : '/' ∉ (basename p).data :=
  basenameCL_no_slash p.data

theorem takeWhile_append_of_all {p : Char → Bool} (l1 l2 : List Char)
    (h : ∀ a ∈ l1, p a = true) : (l1 ++ l2).takeWhile p = l1 ++ l2.takeWhile p := by
  induction l1 with
  | nil => rfl
  | cons a l ih =>
      rw [List.cons_append, List.takeWhile_cons, h a (List.mem_cons_self _ _)]
      rw [ih (fun b hb => h b (List.mem_cons_of_mem _ hb))]
      rfl

theorem basenameCL_append (a b : List Char) (hb : '/' ∉ b) :
    basenameCL (a ++ '/' :: b) = b := by
  rw [basenameCL, List.reverse_append, List.reverse_cons]
  rw [List.append_assoc]
  rw [takeWhile_append_of_all b.reverse (['/'] ++ a.reverse)
    (fun c hc => by
      rw [List.mem_reverse] at hc
      simp only [decide_eq_true_eq, ne_eq]
      intro he
      exact hb (he ▸ hc))]
  have : (['/'] ++ a.reverse).takeWhile (fun c => c ≠ '/') = [] := by
    simp [List.takeWhile_cons]
  rw [this, List.append_nil, List.reverse_reverse]

theorem basename_joinPath (d b : String) (hb : '/' ∉ b.data) :
    basename (joinPath d b) = b := by
  apply String.eq_of_data_eq
  show basenameCL (joinPath d b).data = b.data
  rw [data_joinPath, basenameCL_append d.data b.data hb]

theorem joinPath_inj {a1 b1 a2 b2 : String}
    (h1 : '/' ∉ b1.data) (h2 : '/' ∉ b2.data)
    (h : joinPath a1 b1 = joinPath a2 b2) : a1 = a2 ∧ b1 = b2 := by
  have hd : a1.data ++ '/' :: b1.data = a2.data ++ '/' :: b2.data := by
    have h3 := congrArg String.data h
    rwa [data_joinPath, data_joinPath] at h3
  have hb : b1.data = b2.data := by
    have h4 := congrArg basenameCL hd
    rwa [basenameCL_append _ _ h1, basenameCL_append _ _ h2] at h4
  refine ⟨?_, String.eq_of_data_eq hb⟩
  apply String.eq_of_data_eq
  rw [hb] at hd
  have h5 : a1.data ++ ('/' :: b2.data) = a2.data ++ ('/' :: b2.data) := hd
  exact List.append_cancel_right h5

theorem joinPath_ne (a b : String) : joinPath a b ≠ a := by
  intro h
  have h2 := congrArg (fun s => s.data.length) h
  simp only [data_joinPath, List.length_append, List.length_cons] at h2
  omega

/-- Destination path of a member file inside a destination folder. -/
def destOf (d f : String) : String := joinPath d (basename f)

theorem destOf_basename_eq {d f1 f2 : String} (h : destOf d f1 = destOf d f2) :
    basename f1 = basename f2 :=
  (joinPath_inj (basename_no_slash f1) (basename_no_slash f2) h).2

theorem destOf_ne_folder (d f : String) : destOf d f ≠ d :=
  joinPath_ne d (basename f)

theorem FS.lookup_set_self (fs : FS) (p : String) (e : FSEntry) :
    (fs.set p e).lookup p = some e := by
  rw [FS.lookup_set, if_pos rfl]

theorem FS.lookup_set_ne (fs : FS) {p q : String} (e : FSEntry) (h : q ≠ p) :
    (fs.set p e).lookup q = fs.lookup q := by
  rw [FS.lookup_set, if_neg h]

theorem FS.isfile_of_lookup_file {fs : FS} {p : String} {n : Nat}
    (h : fs.lookup p = some (FSEntry.file n)) : fs.isfile p = true := by
  rw [FS.isfile, h]

theorem FS.fsize_of_lookup_file {fs : FS} {p : String} {n : Nat}
    (h : fs.lookup p = some (FSEntry.file n)) : fs.fsize p = n := by
  rw [FS.fsize, h]

theorem FS.isfile_iff_lookup {fs : FS} {p : String} :
    fs.isfile p = true ↔ ∃ n, fs.lookup p = some (FSEntry.file n) := by
  rw [FS.isfile]
  rcases h : fs.lookup p with _ | e
  · simp
  · rcases e with n | _ <;> simp

/-! ### Branch equations of the copy loop -/

theorem copy_files_cons_skip (ioFail : String → Bool) (d f : String) (rest : List String)
    (m : Metrics) (c : CopyLog) (fs : FS)
    (hfile : fs.isfile (destOf d f) = true)
    (hsrc : fs.isfile f = true)
    (hsz : fs.fsize f = fs.fsize (destOf d f)) :
    copy_files ioFail d (f :: rest) (m, c, fs) =
      copy_files ioFail d rest
        ({ m with file_existed := m.file_existed ++ [f] }, c, fs) := by
  rw [copy_files]
  rw [show joinPath d (basename f) = destOf d f from rfl]
  rw [if_pos hfile]
  rw [FS.getsize_eq_ok hsrc, FS.getsize_eq_ok hfile]
  simp [Bind.bind, Except.bind, hsz]

theorem copy_files_cons_mismatch (ioFail : String → Bool) (d f : String) (rest : List String)
    (m : Metrics) (c : CopyLog) (fs : FS)
    (hfile : fs.isfile (destOf d f) = true)
    (hsrc : fs.isfile f = true)
    (hsz : fs.fsize f ≠ fs.fsize (destOf d f)) :
    copy_files ioFail d (f :: rest) (m, c, fs) = Except.error Err.logicError := by
  rw [copy_files]
  rw [show joinPath d (basename f) = destOf d f from rfl]
  rw [if_pos hfile]
  rw [FS.getsize_eq_ok hsrc, FS.getsize_eq_ok hfile]
  simp [Bind.bind, Except.bind, hsz]

theorem copy_files_cons_copy (ioFail : String → Bool) (d f : String) (rest : List String)
    (m : Metrics) (c : CopyLog) (fs : FS)
    (hnf : fs.isfile (destOf d f) = false)
    (hsrc : fs.isfile f = true)
    (hok : ioFail f = false)
    (hent : c.entered = true) :
    copy_files ioFail d (f :: rest) (m, c, fs) =
      copy_files ioFail d rest
        (m.inc_copied none, { c with logfile := c.logfile ++ [f] },
         fs.set (destOf d f) (FSEntry.file (fs.fsize f))) := by
  rw [copy_files]
  rw [show joinPath d (basename f) = destOf d f from rfl]
  rw [if_neg (by rw [hnf]; exact Bool.false_ne_true)]
  rw [if_pos (by rw [hsrc, hok]; rfl)]
  rw [FS.getsize_eq_ok hsrc]
  simp [Bind.bind, Except.bind, CopyLog.add, hent]

theorem copy_files_cons_fail (ioFail : String → Bool) (d f : String) (rest : List String)
    (m : Metrics) (c : CopyLog) (fs : FS)
    (hnf : fs.isfile (destOf d f) = false)
    (hbad : (fs.isfile f && !ioFail f) = false) :
    copy_files ioFail d (f :: rest) (m, c, fs) =
      copy_files ioFail d rest
        ({ m with failed := m.failed ++ [destOf d f] }, c, fs) := by
  rw [copy_files]
  rw [show joinPath d (basename f) = destOf d f from rfl]
  rw [if_neg (by rw [hnf]; exact Bool.false_ne_true)]
  rw [if_neg (by rw [hbad]; exact Bool.false_ne_true)]

theorem copy_files_cons_notentered (ioFail : String → Bool) (d f : String) (rest : List String)
    (m : Metrics) (c : CopyLog) (fs : FS)
    (hnf : fs.isfile (destOf d f) = false)
    (hsrc : fs.isfile f = true)
    (hok : ioFail f = false)
    (hent : c.entered = false) :
    copy_files ioFail d (f :: rest) (m, c, fs) = Except.error Err.notEntered := by
  rw [copy_files]
  rw [show joinPath d (basename f) = destOf d f from rfl]
  rw [if_neg (by rw [hnf]; exact Bool.false_ne_true)]
  rw [if_pos (by rw [hsrc, hok]; rfl)]
  rw [FS.getsize_eq_ok hsrc]
  simp [Bind.bind, Except.bind, CopyLog.add, hent]

/-! ### The collision probe, characterised -/

theorem collision_probe_spec (fs : FS) (d : String) :
    ∀ files : List String, (∀ f ∈ files, fs.isfile f = true) →
      ∃ b, collision_probe fs d files = Except.ok b ∧
        (b = false → ∀ f ∈ files, fs.isdir (destOf d f) = false ∧
          (fs.isfile (destOf d f) = true → fs.fsize (destOf d f) = fs.fsize f)) ∧
        (b = true ↔ ∃ f ∈ files, fs.isdir (destOf d f) = true ∨
          (fs.isfile (destOf d f) = true ∧ fs.fsize f ≠ fs.fsize (destOf d f))) := by
  intro files
  induction files with
  | nil =>
      intro _
      refine ⟨false, rfl, fun _ f hf => absurd hf (List.not_mem_nil f), ?_⟩
      simp
  | cons f rest ih =>
      intro hsrc
      obtain ⟨b', hrun, hfalse, htrue⟩ := ih (fun g hg => hsrc g (List.mem_cons_of_mem _ hg))
      have hflag : ∃ flag : Bool,
          collision_probe fs d (f :: rest) = Except.ok (flag || b') ∧
          (flag = true ↔ fs.isdir (destOf d f) = true ∨
            (fs.isfile (destOf d f) = true ∧ fs.fsize f ≠ fs.fsize (destOf d f))) := by
        by_cases hd : fs.isdir (destOf d f) = true
        · refine ⟨true, ?_, by simp [hd]⟩
          rw [collision_probe]
          rw [show joinPath d (basename f) = destOf d f from rfl]
          rw [if_pos hd]
          simp [Bind.bind, Except.bind, hrun, pure, Except.pure]
        · have hd' : fs.isdir (destOf d f) = false := by
            cases h : fs.isdir (destOf d f)
            · rfl
            · exact absurd h hd
          by_cases hfl : fs.isfile (destOf d f) = true
          · refine ⟨decide (fs.fsize f ≠ fs.fsize (destOf d f)), ?_, ?_⟩
            · rw [collision_probe]
              rw [show joinPath d (basename f) = destOf d f from rfl]
              rw [if_neg (by rw [hd']; exact Bool.false_ne_true), if_pos hfl]
              rw [FS.getsize_eq_ok (hsrc f (List.mem_cons_self _ _)), FS.getsize_eq_ok hfl]
              simp [Bind.bind, Except.bind, hrun, pure, Except.pure]
            · simp [hd', hfl]
          · have hfl' : fs.isfile (destOf d f) = false := by
              cases h : fs.isfile (destOf d f)
              · rfl
              · exact absurd h hfl
            refine ⟨false, ?_, by simp [hd', hfl']⟩
            rw [collision_probe]
            rw [show joinPath d (basename f) = destOf d f from rfl]
            rw [if_neg (by rw [hd']; exact Bool.false_ne_true),
              if_neg (by rw [hfl']; exact Bool.false_ne_true)]
            simp [Bind.bind, Except.bind, hrun, pure, Except.pure]
      obtain ⟨flag, hpr, hiff⟩ := hflag
      refine ⟨flag || b', hpr, ?_, ?_⟩
      · intro hfb
        rw [Bool.or_eq_false_iff] at hfb
        intro g hg
        rcases List.mem_cons.mp hg with hg1 | hg1
        · subst hg1
          have hnot : ¬ (fs.isdir (destOf d g) = true ∨
              (fs.isfile (destOf d g) = true ∧ fs.fsize g ≠ fs.fsize (destOf d g))) := by
            intro hcon
            have := hiff.mpr hcon
            rw [hfb.1] at this
            exact Bool.false_ne_true this
          push_neg at hnot
          refine ⟨?_, ?_⟩
          · cases h : fs.isdir (destOf d g)
            · rfl
            · exact absurd h hnot.1
          · intro hf
            exact (hnot.2 hf).symm
        · exact hfalse hfb.2 g hg1
      · rw [Bool.or_eq_true_iff]
        constructor
        · rintro (h | h)
          · exact ⟨f, List.mem_cons_self _ _, hiff.mp h⟩
          · obtain ⟨g, hg, hc⟩ := htrue.mp h
            exact ⟨g, List.mem_cons_of_mem _ hg, hc⟩
        · rintro ⟨g, hg, hc⟩
          rcases List.mem_cons.mp hg with hg1 | hg1
          · subst hg1
            exact Or.inl (hiff.mpr hc)
          · exact Or.inr (htrue.mpr ⟨g, hg1, hc⟩)

/-! ### The copy loop over a fresh destination folder -/

theorem FS.isfile_congr {fs1 fs2 : FS} {p : String}
    (h : fs1.lookup p = fs2.lookup p) : fs1.isfile p = fs2.isfile p := by
  rw [FS.isfile, FS.isfile, h]

theorem FS.fsize_congr {fs1 fs2 : FS} {p : String}
    (h : fs1.lookup p = fs2.lookup p) : fs1.fsize p = fs2.fsize p := by
  rw [FS.fsize, FS.fsize, h]

theorem copy_files_fresh (ioFail : String → Bool) (d : String) :
    ∀ (files : List String) (m : Metrics) (c : CopyLog) (fs : FS),
      c.entered = true →
      (∀ f ∈ files, fs.isfile f = true) →
      (∀ f ∈ files, ioFail f = false) →
      (∀ f1 ∈ files, ∀ f2 ∈ files, basename f1 = basename f2 → f1 = f2) →
      (∀ f ∈ files, fs.lookup (destOf d f) = none ∨
        fs.lookup (destOf d f) = some (FSEntry.file (fs.fsize f))) →
      ∃ m' c' fs', copy_files ioFail d files (m, c, fs) = Except.ok (m', c', fs') ∧
        (∀ f ∈ files, fs'.lookup (destOf d f) = some (FSEntry.file (fs.fsize f))) ∧
        (∀ q, (∀ f ∈ files, q ≠ destOf d f) → fs'.lookup q = fs.lookup q) ∧
        m'.alt_folders = m.alt_folders := by
  intro files
  induction files with
  | nil =>
      intro m c fs _ _ _ _ _
      exact ⟨m, c, fs, rfl, fun f hf => absurd hf (List.not_mem_nil f),
        fun q _ => rfl, rfl⟩
  | cons f rest ih =>
      intro m c fs hent hsrc hfail hinj hdest
      have hsrcf : fs.isfile f = true := hsrc f (List.mem_cons_self _ _)
      rcases hdest f (List.mem_cons_self _ _) with hda | hdb
      · -- destination of f absent: the file is copied
        have hnf : fs.isfile (destOf d f) = false :=
          FS.isfile_eq_false_of_lookup_none hda
        have hfne : f ≠ destOf d f := by
          intro he
          rcases FS.isfile_iff_lookup.mp hsrcf with ⟨n, hn⟩
          rw [he, hda] at hn
          exact Option.noConfusion hn
        have hpres : ∀ g ∈ rest,
            (fs.set (destOf d f) (FSEntry.file (fs.fsize f))).lookup g = fs.lookup g := by
          intro g hg
          apply FS.lookup_set_ne
          intro he
          rcases FS.isfile_iff_lookup.mp (hsrc g (List.mem_cons_of_mem _ hg)) with ⟨n, hn⟩
          rw [he, hda] at hn
          exact Option.noConfusion hn
        have hfsize2 : ∀ g ∈ rest,
            (fs.set (destOf d f) (FSEntry.file (fs.fsize f))).fsize g = fs.fsize g :=
          fun g hg => FS.fsize_congr (hpres g hg)
        have hfsizef : (fs.set (destOf d f) (FSEntry.file (fs.fsize f))).fsize f = fs.fsize f :=
          FS.fsize_congr (FS.lookup_set_ne fs _ hfne)
        obtain ⟨m', c', fs', hrun, hgot, hunch, halt⟩ :=
          ih (m.inc_copied none) { c with logfile := c.logfile ++ [f] }
            (fs.set (destOf d f) (FSEntry.file (fs.fsize f)))
            hent
            (fun g hg => by
              rw [FS.isfile_congr (hpres g hg)]
              exact hsrc g (List.mem_cons_of_mem _ hg))
            (fun g hg => hfail g (List.mem_cons_of_mem _ hg))
            (fun g1 hg1 g2 hg2 hb => hinj g1 (List.mem_cons_of_mem _ hg1)
              g2 (List.mem_cons_of_mem _ hg2) hb)
            (fun g hg => by
              by_cases hdd : destOf d g = destOf d f
              · have hgf : g = f := hinj g (List.mem_cons_of_mem _ hg)
                  f (List.mem_cons_self _ _) (destOf_basename_eq hdd)
                right
                rw [hdd, FS.lookup_set_self, hgf, hfsizef]
              · rcases hdest g (List.mem_cons_of_mem _ hg) with h | h
                · left
                  rw [FS.lookup_set_ne fs _ hdd, h]
                · right
                  rw [FS.lookup_set_ne fs _ hdd, h, hfsize2 g hg])
        refine ⟨m', c', fs', ?_, ?_, ?_, ?_⟩
        · rw [copy_files_cons_copy ioFail d f rest m c fs hnf hsrcf
            (hfail f (List.mem_cons_self _ _)) hent]
          exact hrun
        · intro g hg
          rcases List.mem_cons.mp hg with hg1 | hg1
          · subst hg1
            by_cases hmemd : ∀ g' ∈ rest, destOf d g ≠ destOf d g'
            · rw [hunch _ hmemd, FS.lookup_set_self]
            · push_neg at hmemd
              obtain ⟨g', hg', hdd⟩ := hmemd
              have hgf : g' = g := hinj g' (List.mem_cons_of_mem _ hg')
                g (List.mem_cons_self _ _) (destOf_basename_eq hdd.symm)
              have hfrest : g ∈ rest := hgf ▸ hg'
              rw [hgot g hfrest, hfsizef]
          · rw [hgot g hg1, hfsize2 g hg1]
        · intro q hq
          rw [hunch q (fun g hg => hq g (List.mem_cons_of_mem _ hg))]
          exact FS.lookup_set_ne fs _ (hq f (List.mem_cons_self _ _))
        · exact halt
      · -- destination of f already a file of matching size: skipped
        have hdf : fs.isfile (destOf d f) = true := FS.isfile_of_lookup_file hdb
        have hsz : fs.fsize f = fs.fsize (destOf d f) :=
          (FS.fsize_of_lookup_file hdb).symm
        obtain ⟨m', c', fs', hrun, hgot, hunch, halt⟩ :=
          ih { m with file_existed := m.file_existed ++ [f] } c fs
            hent
            (fun g hg => hsrc g (List.mem_cons_of_mem _ hg))
            (fun g hg => hfail g (List.mem_cons_of_mem _ hg))
            (fun g1 hg1 g2 hg2 hb => hinj g1 (List.mem_cons_of_mem _ hg1)
              g2 (List.mem_cons_of_mem _ hg2) hb)
            (fun g hg => hdest g (List.mem_cons_of_mem _ hg))
        refine ⟨m', c', fs', ?_, ?_, ?_, ?_⟩
        · rw [copy_files_cons_skip ioFail d f rest m c fs hdf hsrcf hsz]
          exact hrun
        · intro g hg
          rcases List.mem_cons.mp hg with hg1 | hg1
          · subst hg1
            by_cases hmemd : ∀ g' ∈ rest, destOf d g ≠ destOf d g'
            · rw [hunch _ hmemd]
              exact hdb
            · push_neg at hmemd
              obtain ⟨g', hg', hdd⟩ := hmemd
              have hgf : g' = g := hinj g' (List.mem_cons_of_mem _ hg')
                g (List.mem_cons_self _ _) (destOf_basename_eq hdd.symm)
              have hfrest : g ∈ rest := hgf ▸ hg'
              exact hgot g hfrest
          · exact hgot g hg1
        · exact fun q hq => hunch q (fun g hg => hq g (List.mem_cons_of_mem _ hg))
        · exact halt

/-! ### C2: whole-shot collision redirection -/

/-- C2: if some member's primary destination is a directory or a file of the
wrong size, `try_copy` creates the alternate folder, records it in metrics,
writes every member file under the alternate folder (at the source's size),
and leaves every primary destination path untouched. -/
theorem C2_whole_shot_redirect (ioFail : String → Bool) (metrics : Metrics)
    (plan : CopyPlan) (copylog : CopyLog) (fg : FileGroup) (fs : FS) (sub alt : String)
    (hsub : fg.dest_subfolder = some sub)
    (halt : fg.dest_subfolderalt = some alt)
    (hsf1 : '/' ∉ sub.data) (hsf2 : '/' ∉ alt.data) (hnesub : sub ≠ alt)
    (hent : copylog.entered = true)
    (hprim : fs.isdir (joinPath plan.destpath sub) = true)
    (hsrc : ∀ f ∈ fg.files, fs.isfile f = true)
    (hnofail : ∀ f ∈ fg.files, ioFail f = false)
    (hinj : ∀ f1 ∈ fg.files, ∀ f2 ∈ fg.files, basename f1 = basename f2 → f1 = f2)
    (haltfree : fs.lookup (joinPath plan.destpath alt) = none)
    (haltempty : ∀ f ∈ fg.files,
      fs.lookup (joinPath (joinPath plan.destpath alt) (basename f)) = none)
    (hcoll : ∃ f ∈ fg.files,
      fs.isdir (joinPath (joinPath plan.destpath sub) (basename f)) = true ∨
      (fs.isfile (joinPath (joinPath plan.destpath sub) (basename f)) = true ∧
       fs.fsize f ≠ fs.fsize (joinPath (joinPath plan.destpath sub) (basename f)))) :
    ∃ m' c' fs', try_copy ioFail metrics plan copylog fg fs = Except.ok (m', c', fs') ∧
      m'.alt_folders = metrics.alt_folders ++ [joinPath plan.destpath alt] ∧
      (∀ f ∈ fg.files,
        fs'.lookup (joinPath (joinPath plan.destpath alt) (basename f)) =
          some (FSEntry.file (fs.fsize f))) ∧
      (∀ f ∈ fg.files,
        fs'.lookup (joinPath (joinPath plan.destpath sub) (basename f)) =
          fs.lookup (joinPath (joinPath plan.destpath sub) (basename f))) := by
  obtain ⟨b, hpr, _hfalse, hbtrue⟩ :=
    collision_probe_spec fs (joinPath plan.destpath sub) fg.files hsrc
  have hb : b = true := hbtrue.mpr hcoll
  subst hb
  have hexf : fs.existsp (joinPath plan.destpath alt) = false := by
    rw [FS.existsp, haltfree]; rfl
  have hmk : fs.makedirs (joinPath plan.destpath alt) =
      Except.ok (fs.set (joinPath plan.destpath alt) FSEntry.dir) := by
    rw [FS.makedirs, if_neg (by rw [hexf]; exact Bool.false_ne_true)]
  have hne_alt_src : ∀ f ∈ fg.files, f ≠ joinPath plan.destpath alt := by
    intro f hf he
    rcases FS.isfile_iff_lookup.mp (hsrc f hf) with ⟨n, hn⟩
    rw [he, haltfree] at hn
    exact Option.noConfusion hn
  have hpres2 : ∀ f ∈ fg.files,
      (fs.set (joinPath plan.destpath alt) FSEntry.dir).lookup f = fs.lookup f :=
    fun f hf => FS.lookup_set_ne fs _ (hne_alt_src f hf)
  have hfresh2 : ∀ f ∈ fg.files,
      (fs.set (joinPath plan.destpath alt) FSEntry.dir).lookup
        (destOf (joinPath plan.destpath alt) f) = none := by
    intro f hf
    rw [FS.lookup_set_ne fs _ (destOf_ne_folder _ _)]
    exact haltempty f hf
  obtain ⟨m', c', fs', hrun, hgot, hunch, haltm⟩ :=
    copy_files_fresh ioFail (joinPath plan.destpath alt) fg.files
      { metrics with alt_folders := metrics.alt_folders ++ [joinPath plan.destpath alt] }
      copylog (fs.set (joinPath plan.destpath alt) FSEntry.dir)
      hent
      (fun f hf => by
        rw [FS.isfile_congr (hpres2 f hf)]
        exact hsrc f hf)
      hnofail hinj
      (fun f hf => Or.inl (hfresh2 f hf))
  have hassemble : try_copy ioFail metrics plan copylog fg fs =
      copy_files ioFail (joinPath plan.destpath alt) fg.files
        ({ metrics with alt_folders := metrics.alt_folders ++ [joinPath plan.destpath alt] },
         copylog, fs.set (joinPath plan.destpath alt) FSEntry.dir) := by
    rw [try_copy]
    rw [hsub, halt]
    simp only [Option.getD_some, hprim, Bool.not_true, Bool.false_eq_true, if_false,
      Bind.bind, Except.bind, pure, Except.pure, hpr, if_true, hmk]
  refine ⟨m', c', fs', by rw [hassemble]; exact hrun, by rw [haltm], ?_, ?_⟩
  · intro f hf
    rw [show joinPath (joinPath plan.destpath alt) (basename f) =
      destOf (joinPath plan.destpath alt) f from rfl]
    rw [hgot f hf]
    rw [FS.fsize_congr (hpres2 f hf)]
  · intro f hf
    have hq : ∀ g ∈ fg.files,
        joinPath (joinPath plan.destpath sub) (basename f) ≠
          destOf (joinPath plan.destpath alt) g := by
      intro g hg he
      have hpair := joinPath_inj (basename_no_slash f) (basename_no_slash g) he
      have hpair2 := joinPath_inj hsf1 hsf2 hpair.1
      exact hnesub hpair2.2
    rw [hunch _ hq]
    apply FS.lookup_set_ne
    intro he
    have hpair := joinPath_inj (basename_no_slash f) hsf2 he
    exact joinPath_ne _ _ hpair.1

/-- Concrete two-file shot for the C2 witness: only `a.jpg`'s destination
conflicts (wrong size), the `a.nef` destination is free. -/
def fgC2 : FileGroup :=
  ⟨["/v/a.jpg", "/v/a.nef"], some "/v/a", none, some "s", some "s_01", none⟩

def planC2 : CopyPlan := ⟨7, ⟨2010, 6, 20, 0, 0, 0⟩, false, [], 0, none, "/d", none⟩

def logC2 : CopyLog := ⟨[], [], true⟩

def fsC2 : FS :=
  ⟨[("/v/a.jpg", FSEntry.file 3), ("/v/a.nef", FSEntry.file 5),
    ("/d/s", FSEntry.dir), ("/d/s/a.jpg", FSEntry.file 7)]⟩

/-- Witness for C2: the concrete two-file shot is fully redirected. -/
theorem C2_witness :
    ∃ m' c' fs',
      try_copy (fun _ => false) metrics0 planC2 logC2 fgC2 fsC2 = Except.ok (m', c', fs') ∧
      m'.alt_folders = metrics0.alt_folders ++ [joinPath planC2.destpath "s_01"] ∧
      (∀ f ∈ fgC2.files,
        fs'.lookup (joinPath (joinPath planC2.destpath "s_01") (basename f)) =
          some (FSEntry.file (fsC2.fsize f))) ∧
      (∀ f ∈ fgC2.files,
        fs'.lookup (joinPath (joinPath planC2.destpath "s") (basename f)) =
          fsC2.lookup (joinPath (joinPath planC2.destpath "s") (basename f))) :=
  C2_whole_shot_redirect (fun _ => false) metrics0 planC2 logC2 fgC2 fsC2 "s" "s_01"
    rfl rfl (by decide) (by decide) (by decide) rfl (by decide) (by decide)
    (by decide) (by decide) (by decide) (by decide) (by decide)

/-! ### C9: the "logic error" branch is unreachable -/

theorem copy_files_no_logic_error (ioFail : String → Bool) (d : String) :
    ∀ (files : List String) (m : Metrics) (c : CopyLog) (fs : FS),
      (∀ f ∈ files, fs.isfile f = true) →
      (∀ f1 ∈ files, ∀ f2 ∈ files, basename f1 = basename f2 → f1 = f2) →
      (∀ f1 ∈ files, ∀ f2 ∈ files, destOf d f1 ≠ f2) →
      (∀ f ∈ files, fs.isfile (destOf d f) = true →
        fs.fsize (destOf d f) = fs.fsize f) →
      copy_files ioFail d files (m, c, fs) ≠ Except.error Err.logicError := by
  intro files
  induction files with
  | nil =>
      intro m c fs _ _ _ _ h
      rw [copy_files] at h
      exact Except.noConfusion h
  | cons f rest ih =>
      intro m c fs hsrc hinj hsep hinv
      have hsrcf : fs.isfile f = true := hsrc f (List.mem_cons_self _ _)
      by_cases hdf : fs.isfile (destOf d f) = true
      · have hsz : fs.fsize f = fs.fsize (destOf d f) :=
          (hinv f (List.mem_cons_self _ _) hdf).symm
        rw [copy_files_cons_skip ioFail d f rest m c fs hdf hsrcf hsz]
        exact ih _ _ fs
          (fun g hg => hsrc g (List.mem_cons_of_mem _ hg))
          (fun g1 hg1 g2 hg2 hb => hinj g1 (List.mem_cons_of_mem _ hg1)
            g2 (List.mem_cons_of_mem _ hg2) hb)
          (fun g1 hg1 g2 hg2 => hsep g1 (List.mem_cons_of_mem _ hg1)
            g2 (List.mem_cons_of_mem _ hg2))
          (fun g hg => hinv g (List.mem_cons_of_mem _ hg))
      · have hnf : fs.isfile (destOf d f) = false := by
          cases h : fs.isfile (destOf d f)
          · rfl
          · exact absurd h hdf
        by_cases hok : ioFail f = false
        · cases hent : c.entered with
          | false =>
              rw [copy_files_cons_notentered ioFail d f rest m c fs hnf hsrcf hok hent]
              intro h
              injection h with h2
              exact Err.noConfusion h2
          | true =>
              rw [copy_files_cons_copy ioFail d f rest m c fs hnf hsrcf hok hent]
              have hfne : ∀ g ∈ rest, g ≠ destOf d f := by
                intro g hg he
                exact hsep f (List.mem_cons_self _ _) g (List.mem_cons_of_mem _ hg) he.symm
              have hffne : f ≠ destOf d f := by
                intro he
                exact hsep f (List.mem_cons_self _ _) f (List.mem_cons_self _ _) he.symm
              apply ih
              · intro g hg
                rw [FS.isfile_congr (FS.lookup_set_ne fs _ (hfne g hg))]
                exact hsrc g (List.mem_cons_of_mem _ hg)
              · exact fun g1 hg1 g2 hg2 hb => hinj g1 (List.mem_cons_of_mem _ hg1)
                  g2 (List.mem_cons_of_mem _ hg2) hb
              · exact fun g1 hg1 g2 hg2 => hsep g1 (List.mem_cons_of_mem _ hg1)
                  g2 (List.mem_cons_of_mem _ hg2)
              · intro g hg hgf
                by_cases hdd : destOf d g = destOf d f
                · have hgfe : g = f := hinj g (List.mem_cons_of_mem _ hg)
                    f (List.mem_cons_self _ _) (destOf_basename_eq hdd)
                  have e1 : (fs.set (destOf d f) (FSEntry.file (fs.fsize f))).fsize
                      (destOf d g) = fs.fsize f := by
                    rw [hdd]
                    exact FS.fsize_of_lookup_file (FS.lookup_set_self fs _ _)
                  have e2 : (fs.set (destOf d f) (FSEntry.file (fs.fsize f))).fsize g
                      = fs.fsize f := by
                    rw [hgfe]
                    exact FS.fsize_congr (FS.lookup_set_ne fs _ hffne)
                  rw [e1, e2]
                · have hpres : (fs.set (destOf d f) (FSEntry.file (fs.fsize f))).lookup
                      (destOf d g) = fs.lookup (destOf d g) :=
                    FS.lookup_set_ne fs _ hdd
                  have hgf' : fs.isfile (destOf d g) = true := by
                    rw [← FS.isfile_congr hpres]
                    exact hgf
                  rw [FS.fsize_congr hpres,
                    FS.fsize_congr (FS.lookup_set_ne fs (FSEntry.file (fs.fsize f)) (hfne g hg)),
                    hinv g (List.mem_cons_of_mem _ hg) hgf']
        · have hok' : ioFail f = true := by
            cases h : ioFail f
            · exact absurd h hok
            · rfl
          have hbad : (fs.isfile f && !ioFail f) = false := by
            rw [hsrcf, hok']
            rfl
          rw [copy_files_cons_fail ioFail d f rest m c fs hnf hbad]
          exact ih _ _ fs
            (fun g hg => hsrc g (List.mem_cons_of_mem _ hg))
            (fun g1 hg1 g2 hg2 hb => hinj g1 (List.mem_cons_of_mem _ hg1)
              g2 (List.mem_cons_of_mem _ hg2) hb)
            (fun g1 hg1 g2 hg2 => hsep g1 (List.mem_cons_of_mem _ hg1)
              g2 (List.mem_cons_of_mem _ hg2))
            (fun g hg => hinv g (List.mem_cons_of_mem _ hg))

theorem copy_to_alt_no_logic_error (ioFail : String → Bool) (destpath alt : String)
    (files : List String) (m : Metrics) (c : CopyLog) (fs1 : FS)
    (hsrc1 : ∀ f ∈ files, fs1.isfile f = true)
    (hinj : ∀ f1 ∈ files, ∀ f2 ∈ files, basename f1 = basename f2 → f1 = f2)
    (hsepA : ∀ f1 ∈ files, ∀ f2 ∈ files, destOf (joinPath destpath alt) f1 ≠ f2)
    (haltnone : fs1.lookup (joinPath destpath alt) = none)
    (hdests : ∀ f ∈ files, fs1.lookup (destOf (joinPath destpath alt) f) = none) :
    copy_files ioFail (joinPath destpath alt) files
      (m, c, fs1.set (joinPath destpath alt) FSEntry.dir) ≠ Except.error Err.logicError := by
  apply copy_files_no_logic_error
  · intro f hf
    have hne : f ≠ joinPath destpath alt := by
      intro he
      rcases FS.isfile_iff_lookup.mp (hsrc1 f hf) with ⟨n, hn⟩
      rw [he, haltnone] at hn
      exact Option.noConfusion hn
    rw [FS.isfile_congr (FS.lookup_set_ne fs1 _ hne)]
    exact hsrc1 f hf
  · exact hinj
  · exact hsepA
  · intro f hf hisf
    exfalso
    have hnone : (fs1.set (joinPath destpath alt) FSEntry.dir).lookup
        (destOf (joinPath destpath alt) f) = none := by
      rw [FS.lookup_set_ne fs1 _ (destOf_ne_folder _ _)]
      exact hdests f hf
    rw [FS.isfile_eq_false_of_lookup_none hnone] at hisf
    exact Bool.noConfusion hisf

/-- C9: under the claim's preconditions — the probe-to-loop filesystem is
only changed by the loop's own copies, the alternate folder is created only
when previously absent and hence empty, shot members are regular files with
pairwise distinct base names, and destination paths do not collide with
source paths — `try_copy` never raises the fatal "logic error" mismatch. -/
theorem C9_logic_error_unreachable (ioFail : String → Bool) (metrics : Metrics)
    (plan : CopyPlan) (copylog : CopyLog) (fg : FileGroup) (fs : FS) (sub alt : String)
    (hsub : fg.dest_subfolder = some sub)
    (halt : fg.dest_subfolderalt = some alt)
    (hsf1 : '/' ∉ sub.data)
    (hsrc : ∀ f ∈ fg.files, fs.isfile f = true)
    (hinj : ∀ f1 ∈ fg.files, ∀ f2 ∈ fg.files, basename f1 = basename f2 → f1 = f2)
    (hsepP : ∀ f1 ∈ fg.files, ∀ f2 ∈ fg.files,
      joinPath (joinPath plan.destpath sub) (basename f1) ≠ f2)
    (hsepA : ∀ f1 ∈ fg.files, ∀ f2 ∈ fg.files,
      joinPath (joinPath plan.destpath alt) (basename f1) ≠ f2)
    (hempty : fs.lookup (joinPath plan.destpath alt) = none →
      ∀ f ∈ fg.files, fs.lookup (joinPath (joinPath plan.destpath alt) (basename f)) = none) :
    try_copy ioFail metrics plan copylog fg fs ≠ Except.error Err.logicError := by
  intro hcontra
  by_cases hprim : fs.isdir (joinPath plan.destpath sub) = true
  · -- primary folder already a directory: no makedirs, probe runs on `fs`
    obtain ⟨b, hpr, hfalse, _⟩ :=
      collision_probe_spec fs (joinPath plan.destpath sub) fg.files hsrc
    cases b with
    | false =>
        have hassemble : try_copy ioFail metrics plan copylog fg fs =
            copy_files ioFail (joinPath plan.destpath sub) fg.files
              (metrics, copylog, fs) := by
          rw [try_copy, hsub, halt]
          simp only [Option.getD_some, hprim, Bool.not_true, Bool.false_eq_true, if_false,
            Bind.bind, Except.bind, pure, Except.pure, hpr]
        rw [hassemble] at hcontra
        exact copy_files_no_logic_error ioFail _ fg.files metrics copylog fs hsrc hinj hsepP
          (fun f hf hisf => (hfalse rfl f hf).2 hisf) hcontra
    | true =>
        by_cases hexa : fs.existsp (joinPath plan.destpath alt) = true
        · have hmk : fs.makedirs (joinPath plan.destpath alt) =
              Except.error Err.fileExists := by
            rw [FS.makedirs, if_pos hexa]
          have hassemble : try_copy ioFail metrics plan copylog fg fs =
              Except.error Err.fileExists := by
            rw [try_copy, hsub, halt]
            simp only [Option.getD_some, hprim, Bool.not_true, Bool.false_eq_true, if_false,
              Bind.bind, Except.bind, pure, Except.pure, hpr, if_true, hmk]
          rw [hassemble] at hcontra
          injection hcontra with h2
          exact Err.noConfusion h2
        · have hexa' : fs.existsp (joinPath plan.destpath alt) = false := by
            cases h : fs.existsp (joinPath plan.destpath alt)
            · rfl
            · exact absurd h hexa
          have haltnone : fs.lookup (joinPath plan.destpath alt) = none :=
            FS.lookup_eq_none_of_existsp hexa'
          have hmk : fs.makedirs (joinPath plan.destpath alt) =
              Except.ok (fs.set (joinPath plan.destpath alt) FSEntry.dir) := by
            rw [FS.makedirs, if_neg (by rw [hexa']; exact Bool.false_ne_true)]
          have hassemble : try_copy ioFail metrics plan copylog fg fs =
              copy_files ioFail (joinPath plan.destpath alt) fg.files
                ({ metrics with alt_folders :=
                    metrics.alt_folders ++ [joinPath plan.destpath alt] },
                 copylog, fs.set (joinPath plan.destpath alt) FSEntry.dir) := by
            rw [try_copy, hsub, halt]
            simp only [Option.getD_some, hprim, Bool.not_true, Bool.false_eq_true, if_false,
              Bind.bind, Except.bind, pure, Except.pure, hpr, if_true, hmk]
          rw [hassemble] at hcontra
          exact copy_to_alt_no_logic_error ioFail plan.destpath alt fg.files _ copylog fs
            hsrc hinj hsepA haltnone (hempty haltnone) hcontra
  · -- primary folder not a directory: makedirs runs first
    have hprim' : fs.isdir (joinPath plan.destpath sub) = false := by
      cases h : fs.isdir (joinPath plan.destpath sub)
      · rfl
      · exact absurd h hprim
    by_cases hexp : fs.existsp (joinPath plan.destpath sub) = true
    · have hmkp : fs.makedirs (joinPath plan.destpath sub) =
          Except.error Err.fileExists := by
        rw [FS.makedirs, if_pos hexp]
      have hassemble : try_copy ioFail metrics plan copylog fg fs =
          Except.error Err.fileExists := by
        rw [try_copy, hsub, halt]
        simp only [Option.getD_some, hprim', Bool.not_false, if_true,
          Bind.bind, Except.bind, pure, Except.pure, hmkp]
      rw [hassemble] at hcontra
      injection hcontra with h2
      exact Err.noConfusion h2
    · have hexp' : fs.existsp (joinPath plan.destpath sub) = false := by
        cases h : fs.existsp (joinPath plan.destpath sub)
        · rfl
        · exact absurd h hexp
      have hlookp : fs.lookup (joinPath plan.destpath sub) = none :=
        FS.lookup_eq_none_of_existsp hexp'
      have hmkp : fs.makedirs (joinPath plan.destpath sub) =
          Except.ok (fs.set (joinPath plan.destpath sub) FSEntry.dir) := by
        rw [FS.makedirs, if_neg (by rw [hexp']; exact Bool.false_ne_true)]
      have hsrc1 : ∀ f ∈ fg.files,
          (fs.set (joinPath plan.destpath sub) FSEntry.dir).isfile f = true := by
        intro f hf
        have hne : f ≠ joinPath plan.destpath sub := by
          intro he
          rcases FS.isfile_iff_lookup.mp (hsrc f hf) with ⟨n, hn⟩
          rw [he, hlookp] at hn
          exact Option.noConfusion hn
        rw [FS.isfile_congr (FS.lookup_set_ne fs _ hne)]
        exact hsrc f hf
      obtain ⟨b, hpr, hfalse, _⟩ :=
        collision_probe_spec (fs.set (joinPath plan.destpath sub) FSEntry.dir)
          (joinPath plan.destpath sub) fg.files hsrc1
      cases b with
      | false =>
          have hassemble : try_copy ioFail metrics plan copylog fg fs =
              copy_files ioFail (joinPath plan.destpath sub) fg.files
                (metrics, copylog, fs.set (joinPath plan.destpath sub) FSEntry.dir) := by
            rw [try_copy, hsub, halt]
            simp only [Option.getD_some, hprim', Bool.not_false, if_true,
              Bind.bind, Except.bind, pure, Except.pure, hmkp, hpr, Bool.false_eq_true,
              if_false]
          rw [hassemble] at hcontra
          exact copy_files_no_logic_error ioFail _ fg.files metrics copylog _ hsrc1 hinj hsepP
            (fun f hf hisf => (hfalse rfl f hf).2 hisf) hcontra
      | true =>
          by_cases hexa : (fs.set (joinPath plan.destpath sub) FSEntry.dir).existsp
              (joinPath plan.destpath alt) = true
          · have hmk : (fs.set (joinPath plan.destpath sub) FSEntry.dir).makedirs
                (joinPath plan.destpath alt) = Except.error Err.fileExists := by
              rw [FS.makedirs, if_pos hexa]
            have hassemble : try_copy ioFail metrics plan copylog fg fs =
                Except.error Err.fileExists := by
              rw [try_copy, hsub, halt]
              simp only [Option.getD_some, hprim', Bool.not_false, if_true,
                Bind.bind, Except.bind, pure, Except.pure, hmkp, hpr, hmk]
            rw [hassemble] at hcontra
            injection hcontra with h2
            exact Err.noConfusion h2
          · have hexa' : (fs.set (joinPath plan.destpath sub) FSEntry.dir).existsp
                (joinPath plan.destpath alt) = false := by
              cases h : (fs.set (joinPath plan.destpath sub) FSEntry.dir).existsp
                  (joinPath plan.destpath alt)
              · rfl
              · exact absurd h hexa
            have haltnone1 : (fs.set (joinPath plan.destpath sub) FSEntry.dir).lookup
                (joinPath plan.destpath alt) = none :=
              FS.lookup_eq_none_of_existsp hexa'
            have hne_alt_prim : joinPath plan.destpath alt ≠ joinPath plan.destpath sub := by
              intro he
              have h1 := haltnone1
              rw [he, FS.lookup_set_self] at h1
              exact Option.noConfusion h1
            have haltnone : fs.lookup (joinPath plan.destpath alt) = none := by
              have h1 := haltnone1
              rwa [FS.lookup_set_ne fs _ hne_alt_prim] at h1
            have hdests1 : ∀ f ∈ fg.files,
                (fs.set (joinPath plan.destpath sub) FSEntry.dir).lookup
                  (destOf (joinPath plan.destpath alt) f) = none := by
              intro f hf
              have hnedp : destOf (joinPath plan.destpath alt) f ≠
                  joinPath plan.destpath sub := by
                intro he
                have hpair := joinPath_inj (basename_no_slash f) hsf1 he
                exact joinPath_ne plan.destpath alt hpair.1
              rw [FS.lookup_set_ne fs _ hnedp]
              exact hempty haltnone f hf
            have hmk : (fs.set (joinPath plan.destpath sub) FSEntry.dir).makedirs
                (joinPath plan.destpath alt) =
                Except.ok ((fs.set (joinPath plan.destpath sub) FSEntry.dir).set
                  (joinPath plan.destpath alt) FSEntry.dir) := by
              rw [FS.makedirs, if_neg (by rw [hexa']; exact Bool.false_ne_true)]
            have hassemble : try_copy ioFail metrics plan copylog fg fs =
                copy_files ioFail (joinPath plan.destpath alt) fg.files
                  ({ metrics with alt_folders :=
                      metrics.alt_folders ++ [joinPath plan.destpath alt] },
                   copylog, (fs.set (joinPath plan.destpath sub) FSEntry.dir).set
                     (joinPath plan.destpath alt) FSEntry.dir) := by
              rw [try_copy, hsub, halt]
              simp only [Option.getD_some, hprim', Bool.not_false, if_true,
                Bind.bind, Except.bind, pure, Except.pure, hmkp, hpr, hmk]
            rw [hassemble] at hcontra
            exact copy_to_alt_no_logic_error ioFail plan.destpath alt fg.files _ copylog
              (fs.set (joinPath plan.destpath sub) FSEntry.dir)
              hsrc1 hinj hsepA haltnone1 hdests1 hcontra

/-- Witness for C9 at a concrete shot, plan and filesystem. -/
theorem C9_witness :
    try_copy (fun _ => false) metrics0 planC2 logC2 fgC2 fsC2 ≠
      Except.error Err.logicError :=
  C9_logic_error_unreachable (fun _ => false) metrics0 planC2 logC2 fgC2 fsC2 "s" "s_01"
    rfl rfl (by decide) (by decide) (by decide) (by decide) (by decide) (by decide)
